import Mathlib

/-!
Verification of the color-inference core of `scripts/add_metal_classes.py`.

The Python source is shallowly embedded: documents are `String`s (lists of
characters), the palette is a finite map from the 14 known categories to
optional color strings, and the narrow regular-expression shapes used by
`extract_colors` are embedded as token lists interpreted by a backtracking
matcher with Python's leftmost, greedy-first search order.  The IEEE-754
double arithmetic of the luminance test is embedded exactly: every double
reachable in this computation is an integer multiple of `2^(-116)`, so doubles
are carried as integers scaled by `2^116` and every operation is
round-to-nearest-even of the exact result onto the 53-bit grid (`roundQ`).
The model is bit-exact for values that are zero or of magnitude in
`[2^(-64), 2^300)`, which covers every value this computation can produce
(nonzero intermediates are multiples of `2^(-56)/255` and bounded by `450`);
below `2^(-64)` it flushes to zero, which still satisfies the universal
error bound `|roundQ x - x| ≤ 2^(-44)` used in the proofs.
-/

set_option maxRecDepth 10000

/-- The 14 palette categories recognized by `extract_colors`.
(`variable_` stands for the source's `variable` key, which is a reserved
word in Lean.) -/
inductive Category where
  | type
  | keyword
  | number
  | literal
  | string
  | built_in
  | function
  | attribute
  | name
  | variable_
  | symbol
  | meta
  | base
  | background
  deriving DecidableEq

/-- The `colors` dict built by `extract_colors`: at most one color per
category. -/
def Palette : Type := Category → Option String

/-- The empty palette (empty Python dict). -/
def emptyPalette : Palette := fun _ => none

/-- A palette holding only a `background` entry. -/
def bgPal (s : String) : Palette :=
  fun c => if c = Category.background then some s else none

/-- Python's `not colors` test on the dict: true iff every category is
absent. -/
def paletteEmpty (p : Palette) : Bool :=
  (p Category.type).isNone && (p Category.keyword).isNone &&
  (p Category.number).isNone && (p Category.literal).isNone &&
  (p Category.string).isNone && (p Category.built_in).isNone &&
  (p Category.function).isNone && (p Category.attribute).isNone &&
  (p Category.name).isNone && (p Category.variable_).isNone &&
  (p Category.symbol).isNone && (p Category.meta).isNone &&
  (p Category.base).isNone && (p Category.background).isNone

/-- The 22 hexadecimal digit characters of the regex class `[0-9a-fA-F]`. -/
def hexDigits : List Char := ("0123456789abcdefABCDEF").data

/-- Membership in `[0-9a-fA-F]`. -/
def isHexB (c : Char) : Bool := decide (c ∈ hexDigits)

/-- Numeric value of a hexadecimal digit (0 for non-digits). -/
def hexVal (c : Char) : Nat :=
  if c.isDigit then c.toNat - 48
  else if ('a' ≤ c && c ≤ 'f') then c.toNat - 87
  else if ('A' ≤ c && c ≤ 'F') then c.toNat - 55
  else 0

/-- ASCII whitespace, as stripped by Python's `str.rstrip`/`int` and matched
by `\s` (the documents are ASCII style sheets). -/
def isPySpace (c : Char) : Bool :=
  c = ' ' || c = '\t' || c = '\n' || c = '\r' || c = '\x0b' || c = '\x0c'

/-- Hex-digit run parser used by Python's `int(s, 16)`: single underscores
are allowed between digits, never leading, trailing or doubled. -/
def parseDigitsAux (acc : Nat) : List Char → Option Nat
  | [] => some acc
  | c :: cs =>
    if c = '_' then
      match cs with
      | [] => none
      | d :: ds => if isHexB d then parseDigitsAux (16 * acc + hexVal d) ds else none
    else if isHexB c then parseDigitsAux (16 * acc + hexVal c) cs else none

/-- Digits part of `int(s, 16)`: must start with a hex digit. -/
def parseStart (l : List Char) : Option Nat :=
  match l with
  | [] => none
  | c :: _ => if isHexB c then parseDigitsAux 0 l else none

/-- After an `0x`/`0X` prefix one underscore may separate prefix and
digits. -/
def parsePrefixed (l : List Char) : Option Nat :=
  match l with
  | c :: cs => if c = '_' then parseStart cs else parseStart l
  | [] => none

/-- Unsigned body of `int(s, 16)`: optional `0x`/`0X` prefix, then digits. -/
def parseBody (l : List Char) : Option Nat :=
  match l with
  | c :: x :: rest =>
    if c = '0' && (x = 'x' || x = 'X') then parsePrefixed rest else parseStart l
  | _ => parseStart l

/-- Python's `int(s, 16)`: strip whitespace at both ends, optional sign,
then the base-16 body; `none` models the `ValueError` branch. -/
def parseInt16 (l : List Char) : Option Int :=
  let t₁ := l.dropWhile isPySpace
  let t := (t₁.reverse.dropWhile isPySpace).reverse
  match t with
  | [] => none
  | c :: cs =>
    if c = '+' then (parseBody cs).map (fun n => (n : Int))
    else if c = '-' then (parseBody cs).map (fun n => -(n : Int))
    else (parseBody t).map (fun n => (n : Int))

/-- `bg.lstrip('#')`: drop every leading `#`. -/
def lstripHash : List Char → List Char
  | [] => []
  | c :: cs => if c = '#' then lstripHash cs else c :: cs

/-- The 3-digit normalization step: `''.join([c*2 for c in bg])` applied
exactly when the stripped value has length 3. -/
def expand3 (l : List Char) : List Char :=
  if l.length = 3 then (l.map (fun c => [c, c])).flatten else l

/-- Python slice `l[a:b]` for `a ≤ b` (clamped at the end of the list). -/
def pySlice (l : List Char) (a b : Nat) : List Char := (l.drop a).take (b - a)

/-- The `try` block of `is_dark_theme`: strip `#`, normalize 3 digits,
parse the three 2-character channel slices; `none` models the caught
exception. -/
def pyChannels (bgData : List Char) : Option (Int × Int × Int) :=
  let bg := expand3 (lstripHash bgData)
  match parseInt16 (pySlice bg 0 2), parseInt16 (pySlice bg 2 4), parseInt16 (pySlice bg 4 6) with
  | some r, some g, some b => some (r, g, b)
  | _, _, _ => none

/-- Fuel-based `⌊log2 n⌋` (correct whenever `n < 2^fuel`), written with
structural recursion so the kernel can evaluate it. -/
def natLog2F : Nat → Nat → Nat
  | 0, _ => 0
  | fuel + 1, n => if n ≤ 1 then 0 else natLog2F fuel (n / 2) + 1

/-- Decides `2^e ≤ n/d` for natural `n`, positive natural `d` and integer
exponent `e`. -/
def le2powQ (e : Int) (n d : Nat) : Bool :=
  if 0 ≤ e then 2 ^ e.toNat * d ≤ n else d ≤ n * 2 ^ (-e).toNat

/-- Doubles are carried as integers scaled by `2^116`. -/
def dScale : Nat := 2 ^ 116

/-- Round `N/D` to the nearest integer, ties to even. -/
def mantRound (N D : Nat) : Nat :=
  if 2 * (N % D) < D then N / D
  else if D < 2 * (N % D) then N / D + 1
  else if (N / D) % 2 = 0 then N / D else N / D + 1

/-- The binary exponent of the positive rational `n/d`: the unique `e` with
`2^e ≤ n/d < 2^(e+1)` (whenever `n, d < 2^400`). -/
def expOf (n d : Nat) : Int :=
  if le2powQ ((natLog2F 400 n : Int) - (natLog2F 400 d : Int)) n d then
    (natLog2F 400 n : Int) - (natLog2F 400 d : Int)
  else (natLog2F 400 n : Int) - (natLog2F 400 d : Int) - 1

/-- Round the positive rational `n/d` to the nearest IEEE-754 double
(round-to-nearest, ties to even), returned scaled by `2^116`: find the
exponent `e` with `2^e ≤ n/d < 2^(e+1)`, round the 53-bit mantissa
`n/d / 2^(e-52)` half-to-even, and rescale.  Values below `2^(-64)`
(unreachable here) flush to zero. -/
def roundQn (n d : Nat) : Nat :=
  if n = 0 then 0
  else if 0 ≤ expOf n d + 64 then
    (if 0 ≤ 52 - expOf n d then
      mantRound (n * 2 ^ ((52 : Int) - expOf n d).toNat) d * 2 ^ (expOf n d + 64).toNat
    else
      mantRound n (d * 2 ^ (expOf n d - 52).toNat) * 2 ^ (expOf n d + 64).toNat)
  else 0

/-- Signed rounding: IEEE rounding is symmetric under negation. -/
def roundQ (z : Int) (d : Nat) : Int :=
  if z < 0 then -(roundQn (-z).toNat d : Int) else (roundQn z.toNat d : Int)

/-- The three double literals of the source, `0.299`, `0.587`, `0.114`
(each the double nearest the decimal), scaled by `2^116`. -/
def lit299 : Int := roundQ 299 1000

/-- The double literal `0.587`, scaled by `2^116`. -/
def lit587 : Int := roundQ 587 1000

/-- The double literal `0.114`, scaled by `2^116`. -/
def lit114 : Int := roundQ 114 1000

/-- Double multiplication by an integer (integers up to `255` convert to
double exactly): round the exact product. -/
def fmulInt (x k : Int) : Int := roundQ (x * k) dScale

/-- Double addition: round the exact sum. -/
def fadd (x y : Int) : Int := roundQ (x + y) dScale

/-- Double division by `255` (an exact double): round the exact quotient. -/
def fdiv255 (x : Int) : Int := roundQ x (255 * dScale)

/-- The double value of `(0.299*r + 0.587*g + 0.114*b) / 255` as CPython
evaluates it, scaled by `2^116`. -/
def floatLum (r g b : Int) : Int :=
  fdiv255 (fadd (fadd (fmulInt lit299 r) (fmulInt lit587 g)) (fmulInt lit114 b))

/-- Rational value of a scaled double. -/
def dVal (z : Int) : ℚ := (z : ℚ) / (dScale : ℚ)

/-- `is_dark_theme(colors)`: luminance test on the background color,
defaulting to white when absent and to dark on any parse failure.  The
comparison `luminance < 0.5` is the exact double comparison: `0.5` is an
exact double, so it holds iff `2 * floatLum r g b < 2^116`. -/
def is_dark_theme (colors : Palette) : Bool :=
  let bg := (colors Category.background).getD ("#ffffff")
  match pyChannels bg.data with
  | some (r, g, b) => decide (2 * floatLum r g b < (dScale : Int))
  | none => true

/-- Python's `a or b` on an optional string `a`: empty strings are falsy. -/
def pyOr (a : Option String) (b : String) : String :=
  match a with
  | some s => if s = "" then b else s
  | none => b

/-- The five colors produced by `select_metal_colors`. -/
structure MetalColorSet where
  type : String
  vector : String
  matrix : String
  texture : String
  function : String
  deriving DecidableEq

/-- `select_metal_colors(colors, is_dark)`: the five fallback chains of the
source, written with Python's `or` semantics (`pyOr`); the `type` chain ends
in `colors.get('literal', '#6c71c4')`. -/
def select_metal_colors (colors : Palette) (is_dark : Bool) : MetalColorSet :=
  { type := pyOr (colors Category.type)
      (pyOr (colors Category.keyword) ((colors Category.literal).getD ("#6c71c4"))),
    vector := pyOr (colors Category.number)
      (pyOr (colors Category.literal)
        (pyOr (colors Category.symbol)
          (pyOr (colors Category.type) (if is_dark then "#ae81ff" else "#6c71c4")))),
    matrix := pyOr (colors Category.keyword)
      (pyOr (colors Category.name)
        (pyOr (colors Category.type) (if is_dark then "#f92672" else "#a71d5d"))),
    texture := pyOr (colors Category.attribute)
      (pyOr (colors Category.built_in)
        (pyOr (colors Category.meta)
          (pyOr (colors Category.variable_) (if is_dark then "#fd971f" else "#cb4b16")))),
    function := pyOr (colors Category.function)
      (pyOr (colors Category.string)
        (pyOr (colors Category.built_in) (if is_dark then "#a6e22e" else "#859900"))) }

/-- Tokens of the narrow regular-expression dialect used by the 16 patterns
of `extract_colors`: literals, one-character classes (`[,\{]`), greedy star
over a class (`[^}]*`, `\s*`) and greedy plus (`\s+`). -/
inductive RTok where
  | lit : List Char → RTok
  | one : (Char → Bool) → RTok
  | many : (Char → Bool) → RTok
  | many1 : (Char → Bool) → RTok

/-- `[^}]`. -/
def nonClose (c : Char) : Bool := c ≠ '\x7d'

/-- `[^{]`. -/
def nonOpen (c : Char) : Bool := c ≠ '\x7b'

/-- `[,\{]`. -/
def commaOrBrace (c : Char) : Bool := c = ',' || c = '\x7b'

/-- Suffixes left after a greedy class star, in backtracking priority order
(longest consumption first), exactly as Python's engine explores them. -/
def greedySplits (p : Char → Bool) (l : List Char) : List (List Char) :=
  (List.range ((l.takeWhile p).length + 1)).reverse.map (fun k => l.drop k)

/-- All suffixes reachable after matching the token list at the head of the
input, in Python's backtracking priority order. -/
def matchToks : List RTok → List Char → List (List Char)
  | [], l => [l]
  | RTok.lit s :: ts, l => if s.isPrefixOf l then matchToks ts (l.drop s.length) else []
  | RTok.one p :: ts, l =>
    match l with
    | [] => []
    | c :: cs => if p c then matchToks ts cs else []
  | RTok.many p :: ts, l => (greedySplits p l).flatMap (matchToks ts)
  | RTok.many1 p :: ts, l =>
    match l with
    | [] => []
    | c :: cs => if p c then (greedySplits p cs).flatMap (matchToks ts) else []

/-- The capture group `(#[0-9a-fA-F]{3,6})` closing every pattern: greedy,
so it takes up to 6 hex digits and needs at least 3. -/
def captureHex (l : List Char) : Option (List Char) :=
  match l with
  | [] => none
  | c :: cs =>
    if c = '#' then
      let ds := (cs.takeWhile isHexB).take 6
      if 3 ≤ ds.length then some (c :: ds) else none
    else none

/-- Result of anchoring a pattern at the head of `l`: the first suffix (in
backtracking order) on which the closing capture succeeds. -/
def matchAt (ts : List RTok) (l : List Char) : Option (List Char) :=
  (matchToks ts l).findSome? captureHex

/-- `re.search`: try the pattern at each start position from the left; the
leftmost successful position wins. -/
def searchAux (ts : List RTok) : List Char → Option (List Char)
  | [] => matchAt ts []
  | c :: cs =>
    match matchAt ts (c :: cs) with
    | some r => some r
    | none => searchAux ts cs

/-- `[^}]*color:\s*` — the common tail before the capture. -/
def colorTail : List RTok :=
  [RTok.many nonClose, RTok.lit ("color:").data, RTok.many isPySpace]

/-- `\.cls\{[^}]*color:\s*`. -/
def barePat (cls : String) : List RTok :=
  RTok.lit (cls ++ "\x7b").data :: colorTail

/-- `\.cls[,\{][^}]*color:\s*`. -/
def classPat (cls : String) : List RTok :=
  RTok.lit cls.data :: RTok.one commaOrBrace :: colorTail

/-- `\.hljs-keyword,[^{]*\{[^}]*color:\s*`. -/
def kwCommaPat : List RTok :=
  RTok.lit (".hljs-keyword,").data :: RTok.many nonOpen :: RTok.lit ("\x7b").data :: colorTail

/-- `\.hljs-function\s+\.hljs-title[,\{][^}]*color:\s*`. -/
def fnDescPat : List RTok :=
  RTok.lit (".hljs-function").data :: RTok.many1 isPySpace ::
    RTok.lit (".hljs-title").data :: RTok.one commaOrBrace :: colorTail

/-- `\.hljs\{[^}]*background:\s*`. -/
def hljsBgPat : List RTok :=
  [RTok.lit (".hljs\x7b").data, RTok.many nonClose, RTok.lit ("background:").data,
    RTok.many isPySpace]

/-- The 16 `(pattern, name)` pairs of `extract_colors`, in source order. -/
def patternList : List (List RTok × Category) :=
  [(barePat (".hljs-type"), Category.type),
   (barePat (".hljs-keyword"), Category.keyword),
   (kwCommaPat, Category.keyword),
   (classPat (".hljs-number"), Category.number),
   (classPat (".hljs-literal"), Category.literal),
   (classPat (".hljs-string"), Category.string),
   (classPat (".hljs-built_in"), Category.built_in),
   (classPat (".hljs-title.function_"), Category.function),
   (fnDescPat, Category.function),
   (classPat (".hljs-attribute"), Category.attribute),
   (classPat (".hljs-name"), Category.name),
   (classPat (".hljs-variable"), Category.variable_),
   (classPat (".hljs-symbol"), Category.symbol),
   (classPat (".hljs-meta"), Category.meta),
   (barePat (".hljs"), Category.base),
   (hljsBgPat, Category.background)]

/-- `if match and name not in colors: colors[name] = match.group(1)`. -/
def insertIfAbsent (acc : Palette) (n : Category) (v : Option String) : Palette :=
  match v with
  | some col => if (acc n).isSome then acc else fun c => if c = n then some col else acc c
  | none => acc

/-- `extract_colors(css_content)`: run the 16 searches in order, keeping the
first hit per category. -/
def extract_colors (css_content : String) : Palette :=
  patternList.foldl
    (fun acc q => insertIfAbsent acc q.2 ((searchAux q.1 css_content.data).map String.mk))
    emptyPalette

/-- Python's substring test `needle in hay`. -/
def containsSub (needle : List Char) : List Char → Bool
  | [] => needle.isPrefixOf []
  | c :: cs => needle.isPrefixOf (c :: cs) || containsSub needle cs

/-- The marker selector checked by `has_metal_classes`. -/
def vectorMarker : String := ".hljs-type-vector"

/-- `has_metal_classes(css_content)`: `'.hljs-type-vector' in css_content`. -/
def has_metal_classes (css_content : String) : Bool :=
  containsSub vectorMarker.data css_content.data

/-- `generate_metal_css(metal_colors)`: the five rules, joined in order. -/
def generate_metal_css (m : MetalColorSet) : String :=
  (".hljs-type\x7bcolor:" ++ m.type ++ ";font-style:italic\x7d") ++
  (".hljs-type-vector\x7bcolor:" ++ m.vector ++ ";font-weight:700\x7d") ++
  (".hljs-type-matrix\x7bcolor:" ++ m.matrix ++ ";font-weight:700\x7d") ++
  (".hljs-type-texture\x7bcolor:" ++ m.texture ++ ";font-weight:700\x7d") ++
  (".hljs-title.function\x7bcolor:" ++ m.function ++ ";font-weight:400\x7d")

/-- Python's `str.rstrip()` (ASCII whitespace). -/
def pyRstrip (l : List Char) : List Char := (l.reverse.dropWhile isPySpace).reverse

/-- `update_css_file`, with the persistence collaborator made explicit: the
input is the stored document text, the output is the stored text after the
call (unchanged on the failure paths) together with the success flag. -/
def update_css_file (stored : String) : String × Bool :=
  let content := stored
  if has_metal_classes content then (stored, false)
  else
    let colors := extract_colors content
    if paletteEmpty colors then (stored, false)
    else
      let metal_css := generate_metal_css (select_metal_colors colors (is_dark_theme colors))
      let content₂ := String.mk (pyRstrip content.data)
      if content₂.data.getLast? = some ('\x7d') then (content₂ ++ metal_css, true)
      else (stored, false)

/-- Modelled from the spec: the fallback-chain lookup of §4.3 — first
category of the chain present in the palette wins, else the default. -/
def specChain (p : Palette) : List Category → String → String
  | [], d => d
  | c :: cs, d =>
    match p c with
    | some s => s
    | none => specChain p cs d

/-- A well-formed hex color per the spec's data model: `#` followed by 3 or
6 hex digits. -/
def wellFormedColor (s : String) : Bool :=
  match s.data with
  | [] => false
  | c :: ds => c = '#' && ds.all isHexB && (decide (ds.length = 3) || decide (ds.length = 6))

/-- Modelled from the spec: the relative luminance of §4.2, computed from
the 6-digit expansion of the background color;
`(0.299*R + 0.587*G + 0.114*B)/255 = (299*R + 587*G + 114*B)/255000`. -/
def specLum (s : String) : ℚ :=
  match s.data with
  | [] => 0
  | h :: rest =>
    if h = '#' then
      match rest with
      | [a, b, c] =>
        (299 * (17 * (hexVal a : ℚ)) + 587 * (17 * (hexVal b : ℚ)) +
          114 * (17 * (hexVal c : ℚ))) / 255000
      | [a, b, c, d, e, f] =>
        (299 * (16 * (hexVal a : ℚ) + (hexVal b : ℚ)) +
          587 * (16 * (hexVal c : ℚ) + (hexVal d : ℚ)) +
          114 * (16 * (hexVal e : ℚ) + (hexVal f : ℚ))) / 255000
      | _ => 0
    else 0

/-- Shape of every captured color value: `#` followed by 3 to 6 hex
digits. -/
def hexColorShape (s : String) : Prop :=
  ∃ ds, s.data = '#' :: ds ∧ 3 ≤ ds.length ∧ ds.length ≤ 6 ∧ ∀ d ∈ ds, isHexB d = true

/-- First-defined-wins combination of two optional colors. -/
def optOr (a b : Option String) : Option String :=
  match a with
  | some v => some v
  | none => b

/-- Canonical single-rule document with a bare class selector. -/
def bareDoc (cls : String) : String := cls ++ "\x7bcolor:#abc\x7d"

/-- Canonical document whose rule starts a comma-separated selector list. -/
def commaDoc (cls : String) : String := cls ++ ",.x\x7bcolor:#abc\x7d"

/-- Canonical document whose selector is joined to a sibling class with no
separator. -/
def dotDoc (cls : String) : String := cls ++ ".x\x7bcolor:#abc\x7d"

/-- Canonical `background:` documents for the `background` category. -/
def bgBareDoc : String := ".hljs\x7bbackground:#abc\x7d"

/-- Comma variant of the `background:` document. -/
def bgCommaDoc : String := ".hljs,.x\x7bbackground:#abc\x7d"

/-- Joined-sibling variant of the `background:` document. -/
def bgDotDoc : String := ".hljs.x\x7bbackground:#abc\x7d"

/-- Descendant-shape document for the function category. -/
def fnDescDoc : String := ".hljs-function .hljs-title\x7bcolor:#abc\x7d"

/-! ## Helper lemmas -/

theorem pyOr_some {s : String} (b : String) (h : s ≠ "") : pyOr (some s) b = s := by
  simp [pyOr, h]

theorem pyOr_none (b : String) : pyOr none b = b := rfl

theorem getD_specChain (p : Palette) (c : Category) (d : String) :
    (p c).getD d = specChain p [c] d := by
  cases h : p c <;> simp [specChain, h]

theorem pyOr_specChain (p : Palette) (hv : ∀ c s, p c = some s → s ≠ "")
    (c : Category) {rest : String} {cs : List Category} {d : String}
    (hrest : rest = specChain p cs d) :
    pyOr (p c) rest = specChain p (c :: cs) d := by
  cases h : p c with
  | none => simp [pyOr, specChain, h, hrest]
  | some s => simp [specChain, h, pyOr_some _ (hv c s h)]

/-! ## C1 -/

/-- C1. For every Palette `P` (its values are hex colors, hence nonempty
strings) and tone, `select_metal_colors` resolves each of its five fields as
the color of the first key of that field's chain present in `P` — type:
type, keyword, literal; vector: number, literal, symbol, type; matrix:
keyword, name, type; texture: attribute, built_in, meta, variable; function:
function, string, built_in — with the tone's literal default when no chain
key is present; on the empty Palette it returns exactly the five literal
defaults, and the type default does not depend on the tone. -/
theorem select_metal_colors_fallback_chains (p : Palette) (dark : Bool)
    (hv : ∀ c s, p c = some s → s ≠ "") :
    select_metal_colors p dark =
      { type := specChain p [Category.type, Category.keyword, Category.literal] ("#6c71c4"),
        vector := specChain p [Category.number, Category.literal, Category.symbol, Category.type]
          (if dark then "#ae81ff" else "#6c71c4"),
        matrix := specChain p [Category.keyword, Category.name, Category.type]
          (if dark then "#f92672" else "#a71d5d"),
        texture :=
          specChain p [Category.attribute, Category.built_in, Category.meta, Category.variable_]
          (if dark then "#fd971f" else "#cb4b16"),
        function := specChain p [Category.function, Category.string, Category.built_in]
          (if dark then "#a6e22e" else "#859900") } ∧
    select_metal_colors emptyPalette dark =
      { type := "#6c71c4",
        vector := if dark then "#ae81ff" else "#6c71c4",
        matrix := if dark then "#f92672" else "#a71d5d",
        texture := if dark then "#fd971f" else "#cb4b16",
        function := if dark then "#a6e22e" else "#859900" } ∧
    (select_metal_colors emptyPalette true).type = (select_metal_colors emptyPalette false).type := by
  refine ⟨?_, by cases dark <;> rfl, rfl⟩
  show MetalColorSet.mk _ _ _ _ _ = _
  congr 1
  · exact pyOr_specChain p hv _ (pyOr_specChain p hv _ (getD_specChain p _ _))
  · exact pyOr_specChain p hv _ (pyOr_specChain p hv _
      (pyOr_specChain p hv _ (pyOr_specChain p hv _ rfl)))
  · exact pyOr_specChain p hv _ (pyOr_specChain p hv _ (pyOr_specChain p hv _ rfl))
  · exact pyOr_specChain p hv _ (pyOr_specChain p hv _
      (pyOr_specChain p hv _ (pyOr_specChain p hv _ rfl)))
  · exact pyOr_specChain p hv _ (pyOr_specChain p hv _ (pyOr_specChain p hv _ rfl))

/-- Witness for C1 at the empty Palette and dark tone. -/
theorem select_metal_colors_fallback_chains_w :
    select_metal_colors emptyPalette true =
      { type := "#6c71c4", vector := "#ae81ff", matrix := "#f92672",
        texture := "#fd971f", function := "#a6e22e" } :=
  (select_metal_colors_fallback_chains emptyPalette true
    (fun _ s h => by simp [emptyPalette] at h)).2.1

theorem hexChar_facts {c : Char} (h : isHexB c = true) :
    isPySpace c = false ∧ c ≠ '#' ∧ c ≠ '+' ∧ c ≠ '-' ∧ c ≠ '_' ∧ c ≠ 'x' ∧ c ≠ 'X' := by
  have hm : c ∈ hexDigits := of_decide_eq_true h
  fin_cases hm <;> exact (by decide)

theorem dropWhile_cons_false {p : Char → Bool} {c : Char} {cs : List Char}
    (h : p c = false) : (c :: cs).dropWhile p = c :: cs := by
  simp [List.dropWhile, h]

theorem parseInt16_hex2 {x y : Char} (hx : isHexB x = true) (hy : isHexB y = true) :
    parseInt16 [x, y] = some (((16 * hexVal x + hexVal y : Nat) : Int)) := by
  obtain ⟨hxs, -, hxp, hxm, hxu, -, -⟩ := hexChar_facts hx
  obtain ⟨hys, -, -, -, hyu, hyx, hyX⟩ := hexChar_facts hy
  have h1 : ([x, y] : List Char).dropWhile isPySpace = [x, y] := dropWhile_cons_false hxs
  have h2 : ([y, x] : List Char).dropWhile isPySpace = [y, x] := dropWhile_cons_false hys
  simp only [parseInt16, h1, List.reverse_cons, List.reverse_nil, List.nil_append,
    List.cons_append, h2]
  rw [if_neg (by simpa using hxp), if_neg (by simpa using hxm)]
  simp only [parseBody, hyx, hyX]
  rw [if_neg (by simp [hyx, hyX])]
  simp [parseStart, parseDigitsAux, hx, hy, hxu, hyu]

theorem lstripHash_cons_hex {a : Char} (rest : List Char) (ha : isHexB a = true) :
    lstripHash ('#' :: a :: rest) = a :: rest := by
  have := (hexChar_facts ha).2.1
  simp [lstripHash, this]

theorem list_eq_six {l : List Char} (h : l.length = 6) :
    ∃ a b c d e f, l = [a, b, c, d, e, f] := by
  obtain ⟨a, l, rfl⟩ : ∃ x xs, l = x :: xs := by
    cases l with
    | nil => simp at h
    | cons x xs => exact ⟨x, xs, rfl⟩
  obtain ⟨b, l, rfl⟩ : ∃ x xs, l = x :: xs := by
    cases l with
    | nil => simp at h
    | cons x xs => exact ⟨x, xs, rfl⟩
  obtain ⟨c, l, rfl⟩ : ∃ x xs, l = x :: xs := by
    cases l with
    | nil => simp at h
    | cons x xs => exact ⟨x, xs, rfl⟩
  simp only [List.length_cons] at h
  have h3 : l.length = 3 := by omega
  obtain ⟨d, e, f, rfl⟩ := List.length_eq_three.mp h3
  exact ⟨a, b, c, d, e, f, rfl⟩

theorem natLog2F_correct : ∀ (fuel n : Nat), 0 < n → n < 2 ^ fuel →
    2 ^ natLog2F fuel n ≤ n ∧ n < 2 ^ (natLog2F fuel n + 1) := by
  intro fuel
  induction fuel with
  | zero => intro n h1 h2; omega
  | succ fuel ih =>
    intro n h1 h2
    rw [natLog2F]
    by_cases hn : n ≤ 1
    · rw [if_pos hn]
      have hone : n = 1 := by omega
      subst hone
      simp
    · rw [if_neg hn]
      have hpow : 2 ^ (fuel + 1) = 2 * 2 ^ fuel := by ring
      have h2' : n / 2 < 2 ^ fuel := by omega
      have h1' : 0 < n / 2 := by omega
      obtain ⟨hl, hr⟩ := ih (n / 2) h1' h2'
      have hp1 : 2 ^ (natLog2F fuel (n / 2) + 1) = 2 * 2 ^ natLog2F fuel (n / 2) := by ring
      have hp2 : 2 ^ (natLog2F fuel (n / 2) + 1 + 1) = 2 * 2 ^ (natLog2F fuel (n / 2) + 1) := by
        ring
      constructor
      · omega
      · omega


theorem mantRound_err (N D : Nat) (hD : 0 < D) :
    |(mantRound N D : ℚ) - (N : ℚ) / D| ≤ 1 / 2 := by
  have hDq : (0 : ℚ) < (D : ℚ) := by exact_mod_cast hD
  have heuc : D * (N / D) + N % D = N := Nat.div_add_mod N D
  have hmlt : N % D < D := Nat.mod_lt _ hD
  have hcast : (D : ℚ) * ((N / D : Nat) : ℚ) + ((N % D : Nat) : ℚ) = (N : ℚ) := by
    exact_mod_cast heuc
  have hval : (N : ℚ) / D = ((N / D : Nat) : ℚ) + ((N % D : Nat) : ℚ) / D := by
    field_simp
    linarith [hcast]
  have hF0 : (0 : ℚ) ≤ ((N % D : Nat) : ℚ) / D := by positivity
  rw [mantRound, hval]
  by_cases hlt : 2 * (N % D) < D
  · rw [if_pos hlt]
    have hltq : 2 * ((N % D : Nat) : ℚ) < D := by exact_mod_cast hlt
    have hFh : ((N % D : Nat) : ℚ) / D < 1 / 2 := by
      rw [div_lt_iff₀ hDq]
      linarith
    rw [abs_le]
    constructor <;> linarith
  · rw [if_neg hlt]
    by_cases hgt : D < 2 * (N % D)
    · rw [if_pos hgt]
      have hgtq : (D : ℚ) < 2 * ((N % D : Nat) : ℚ) := by exact_mod_cast hgt
      have hmltq : ((N % D : Nat) : ℚ) < D := by exact_mod_cast hmlt
      have hFh : 1 / 2 < ((N % D : Nat) : ℚ) / D := by
        rw [lt_div_iff₀ hDq]
        linarith
      have hF1 : ((N % D : Nat) : ℚ) / D < 1 := by
        rw [div_lt_one hDq]
        exact hmltq
      rw [abs_le]
      constructor <;> push_cast <;> linarith
    · rw [if_neg hgt]
      have heqr : 2 * (N % D) = D := by omega
      have heqq : 2 * ((N % D : Nat) : ℚ) = D := by exact_mod_cast heqr
      have hFh : ((N % D : Nat) : ℚ) / D = 1 / 2 := by
        rw [div_eq_iff (ne_of_gt hDq)]
        linarith
      by_cases hev : (N / D) % 2 = 0
      · rw [if_pos hev, abs_le]
        constructor <;> linarith
      · rw [if_neg hev, abs_le]
        constructor <;> push_cast <;> linarith

theorem le2powQ_iff (e : Int) (n d : Nat) (hd : 0 < d) :
    le2powQ e n d = true ↔ (2 : ℚ) ^ e ≤ (n : ℚ) / d := by
  have hdq : (0 : ℚ) < (d : ℚ) := by exact_mod_cast hd
  rw [le2powQ]
  by_cases h : 0 ≤ e
  · rw [if_pos h, decide_eq_true_iff]
    rw [← Int.toNat_of_nonneg h, zpow_natCast, le_div_iff₀ hdq]
    exact_mod_cast Iff.rfl
  · rw [if_neg h, decide_eq_true_iff]
    have he' : (2 : ℚ) ^ e = ((2 : ℚ) ^ ((-e).toNat))⁻¹ := by
      rw [← zpow_natCast, Int.toNat_of_nonneg (by omega : (0:Int) ≤ -e), zpow_neg, inv_inv]
    rw [he', inv_eq_one_div, div_le_div_iff₀ (by positivity) hdq, one_mul]
    exact_mod_cast Iff.rfl

theorem expOf_correct (n d : Nat) (hn0 : 0 < n) (hd : 0 < d)
    (hn : n < 2 ^ 400) (hdb : d < 2 ^ 400) :
    (2 : ℚ) ^ expOf n d ≤ (n : ℚ) / d ∧ (n : ℚ) / d < (2 : ℚ) ^ (expOf n d + 1) := by
  obtain ⟨hn1, hn2⟩ := natLog2F_correct 400 n hn0 hn
  obtain ⟨hd1, hd2⟩ := natLog2F_correct 400 d hd hdb
  set L1 := natLog2F 400 n with hL1
  set L2 := natLog2F 400 d with hL2
  have hdq : (0 : ℚ) < (d : ℚ) := by exact_mod_cast hd
  have hn1q : ((2 : ℚ) ^ (L1 : ℤ)) ≤ (n : ℚ) := by
    rw [zpow_natCast]
    exact_mod_cast hn1
  have hn2q : (n : ℚ) < (2 : ℚ) ^ ((L1 : ℤ) + 1) := by
    have : ((2 : ℚ) ^ ((L1 : ℤ) + 1)) = ((2 ^ (L1 + 1) : Nat) : ℚ) := by
      push_cast
      rw [← zpow_natCast]
      push_cast
      ring
    rw [this]
    exact_mod_cast hn2
  have hd1q : ((2 : ℚ) ^ (L2 : ℤ)) ≤ (d : ℚ) := by
    rw [zpow_natCast]
    exact_mod_cast hd1
  have hd2q : (d : ℚ) < (2 : ℚ) ^ ((L2 : ℤ) + 1) := by
    have : ((2 : ℚ) ^ ((L2 : ℤ) + 1)) = ((2 ^ (L2 + 1) : Nat) : ℚ) := by
      push_cast
      rw [← zpow_natCast]
      push_cast
      ring
    rw [this]
    exact_mod_cast hd2
  have hub : (n : ℚ) / d < (2 : ℚ) ^ ((L1 : ℤ) - L2 + 1) := by
    rw [div_lt_iff₀ hdq]
    have hsplit : (2 : ℚ) ^ ((L1 : ℤ) - L2 + 1) * (2 : ℚ) ^ (L2 : ℤ) =
        (2 : ℚ) ^ ((L1 : ℤ) + 1) := by
      rw [← zpow_add₀ (by norm_num : (2 : ℚ) ≠ 0)]
      ring_nf
    have hmono := mul_le_mul_of_nonneg_left hd1q
      (le_of_lt (zpow_pos (by norm_num : (0:ℚ) < 2) ((L1 : ℤ) - L2 + 1)))
    calc (n : ℚ) < (2 : ℚ) ^ ((L1 : ℤ) + 1) := hn2q
    _ = (2 : ℚ) ^ ((L1 : ℤ) - L2 + 1) * (2 : ℚ) ^ (L2 : ℤ) := hsplit.symm
    _ ≤ (2 : ℚ) ^ ((L1 : ℤ) - L2 + 1) * d := hmono
  have hlb : (2 : ℚ) ^ ((L1 : ℤ) - L2 - 1) * d < (n : ℚ) := by
    have hsplit : (2 : ℚ) ^ ((L1 : ℤ) - L2 - 1) * (2 : ℚ) ^ ((L2 : ℤ) + 1) =
        (2 : ℚ) ^ (L1 : ℤ) := by
      rw [← zpow_add₀ (by norm_num : (2 : ℚ) ≠ 0)]
      ring_nf
    have hmono := mul_lt_mul_of_pos_left hd2q
      (zpow_pos (by norm_num : (0:ℚ) < 2) ((L1 : ℤ) - L2 - 1))
    calc (2 : ℚ) ^ ((L1 : ℤ) - L2 - 1) * d
        < (2 : ℚ) ^ ((L1 : ℤ) - L2 - 1) * (2 : ℚ) ^ ((L2 : ℤ) + 1) := hmono
    _ = (2 : ℚ) ^ (L1 : ℤ) := hsplit
    _ ≤ (n : ℚ) := hn1q
  rw [expOf, ← hL1, ← hL2]
  by_cases hle : le2powQ ((L1 : ℤ) - L2) n d = true
  · rw [if_pos hle]
    refine ⟨(le2powQ_iff _ _ _ hd).1 hle, ?_⟩
    have : (L1 : ℤ) - L2 + 1 = (L1 : ℤ) - L2 + 1 := rfl
    exact hub
  · rw [if_neg hle]
    have hnle : ¬ ((2 : ℚ) ^ ((L1 : ℤ) - L2) ≤ (n : ℚ) / d) := fun hcl =>
      hle ((le2powQ_iff _ _ _ hd).2 hcl)
    constructor
    · rw [le_div_iff₀ hdq]
      exact le_of_lt hlb
    · have : (L1 : ℤ) - L2 - 1 + 1 = (L1 : ℤ) - L2 := by ring
      rw [this]
      exact lt_of_not_le hnle

theorem zpow_le_two_spec {a b : Int} (h : a ≤ b) : (2 : ℚ) ^ a ≤ (2 : ℚ) ^ b :=
  zpow_le_zpow_right₀ (by norm_num) h

theorem roundQn_err (n d : Nat) (hd : 0 < d) (hnd : (n : ℚ) ≤ 512 * d)
    (hn : n < 2 ^ 380) (hdbig : d < 2 ^ 380) :
    |(roundQn n d : ℚ) / ((dScale : Nat) : ℚ) - (n : ℚ) / d| ≤ (2 : ℚ) ^ (-44 : ℤ) := by
  have hdq : (0 : ℚ) < (d : ℚ) := by exact_mod_cast hd
  have hSq : ((dScale : Nat) : ℚ) = (2 : ℚ) ^ (116 : ℕ) := by norm_num [dScale]
  by_cases hn0 : n = 0
  · subst hn0
    rw [roundQn, if_pos rfl]
    simp
    positivity
  · have hn0' : 0 < n := Nat.pos_of_ne_zero hn0
    obtain ⟨helo, hehi⟩ := expOf_correct n d hn0' hd
      (lt_trans hn (by norm_num)) (lt_trans hdbig (by norm_num))
    rw [roundQn, if_neg hn0]
    set e := expOf n d with he
    have hndq : (n : ℚ) / d ≤ 512 := by
      rw [div_le_iff₀ hdq]
      exact hnd
    have he9 : e ≤ 9 := by
      by_contra hgt
      push_neg at hgt
      have h10 : (2 : ℚ) ^ (10 : ℤ) ≤ (2 : ℚ) ^ e := zpow_le_two_spec (by omega)
      have h1024 : ((2 : ℚ) ^ (10 : ℤ)) = 1024 := by
        rw [show ((10 : ℤ)) = ((10 : ℕ) : ℤ) from rfl, zpow_natCast]
        norm_num
      have := le_trans h10 helo
      rw [h1024] at this
      linarith
    have h52 : 0 ≤ (52 : ℤ) - e := by omega
    by_cases h64 : 0 ≤ e + 64
    · rw [if_pos h64, if_pos h52]
      set N := n * 2 ^ ((52 : ℤ) - e).toNat with hN
      have hmant := mantRound_err N d hd
      have hNq : (N : ℚ) = (n : ℚ) * (2 : ℚ) ^ ((52 : ℤ) - e) := by
        rw [hN]
        push_cast
        rw [← zpow_natCast (2 : ℚ) ((52 : ℤ) - e).toNat, Int.toNat_of_nonneg h52]
      have hmulinv : (2 : ℚ) ^ ((52 : ℤ) - e) * (2 : ℚ) ^ (e - 52) = 1 := by
        rw [← zpow_add₀ (by norm_num : (2 : ℚ) ≠ 0),
          show ((52 : ℤ) - e) + (e - 52) = 0 from by ring, zpow_zero]
      have hvq : ((mantRound N d * 2 ^ (e + 64).toNat : ℕ) : ℚ) / ((dScale : Nat) : ℚ) =
          (mantRound N d : ℚ) * (2 : ℚ) ^ (e - 52) := by
        push_cast
        rw [← zpow_natCast (2 : ℚ) (e + 64).toNat, Int.toNat_of_nonneg h64, hSq,
          ← zpow_natCast (2 : ℚ) 116]
        rw [div_eq_iff (by positivity : ((2 : ℚ) ^ ((116 : ℕ) : ℤ)) ≠ 0)]
        rw [mul_assoc, ← zpow_add₀ (by norm_num : (2 : ℚ) ≠ 0)]
        congr 1
        push_cast
        ring_nf
      have hcancel : (N : ℚ) / d * (2 : ℚ) ^ (e - 52) = (n : ℚ) / d := by
        rw [hNq, div_mul_eq_mul_div, mul_assoc, hmulinv, mul_one]
      have hfac : (mantRound N d : ℚ) * (2 : ℚ) ^ (e - 52) - (n : ℚ) / d =
          ((mantRound N d : ℚ) - (N : ℚ) / d) * (2 : ℚ) ^ (e - 52) := by
        rw [sub_mul, hcancel]
      rw [hvq, hfac, abs_mul, abs_of_pos (zpow_pos (by norm_num : (0:ℚ) < 2) (e - 52))]
      have hp : (0 : ℚ) < (2 : ℚ) ^ (e - 52) := zpow_pos (by norm_num) _
      calc |(mantRound N d : ℚ) - (N : ℚ) / d| * (2 : ℚ) ^ (e - 52)
          ≤ (1 / 2) * (2 : ℚ) ^ (e - 52) := by
            exact mul_le_mul_of_nonneg_right hmant (le_of_lt hp)
      _ ≤ (1 / 2) * (2 : ℚ) ^ (-43 : ℤ) := by
            exact mul_le_mul_of_nonneg_left
              (zpow_le_two_spec (show e - 52 ≤ -43 from by omega))
              (by norm_num : (0 : ℚ) ≤ 1 / 2)
      _ = (2 : ℚ) ^ (-44 : ℤ) := by
            rw [show ((-44 : ℤ)) = (-1) + (-43) from by ring,
              zpow_add₀ (by norm_num : (2 : ℚ) ≠ 0)]
            norm_num
    · rw [if_neg h64]
      have hnn : (0 : ℚ) ≤ (n : ℚ) / d := by positivity
      have hsmall : (n : ℚ) / d < (2 : ℚ) ^ (-63 : ℤ) :=
        lt_of_lt_of_le hehi (zpow_le_two_spec (by omega))
      have h6344 : ((2 : ℚ) ^ (-63 : ℤ)) ≤ (2 : ℚ) ^ (-44 : ℤ) := zpow_le_two_spec (by omega)
      simp only [Nat.cast_zero, zero_div, zero_sub, abs_neg]
      rw [abs_of_nonneg hnn]
      linarith

theorem roundQ_nonneg (z : Int) (d : Nat) (hz : 0 ≤ z) : 0 ≤ roundQ z d := by
  rw [roundQ, if_neg (by omega : ¬ z < 0)]
  exact_mod_cast Nat.zero_le _

theorem roundQ_err (z : Int) (d : Nat) (hz : 0 ≤ z) (hd : 0 < d)
    (hzd : (z : ℚ) ≤ 512 * d) (hzb : z < 2 ^ 380) (hdbig : d < 2 ^ 380) :
    |(roundQ z d : ℚ) / ((dScale : Nat) : ℚ) - (z : ℚ) / d| ≤ (2 : ℚ) ^ (-44 : ℤ) := by
  rw [roundQ, if_neg (by omega : ¬ z < 0)]
  have h1 : ((z.toNat : Nat) : ℚ) = (z : ℚ) := by
    exact_mod_cast Int.toNat_of_nonneg hz
  have h2 : z.toNat < 2 ^ 380 := by omega
  have h3 := roundQn_err z.toNat d hd (by rw [h1]; exact hzd) h2 hdbig
  rw [h1] at h3
  rw [Int.cast_natCast]
  exact h3

theorem fmul_channel (lit : Int) (c : ℚ) (k : Nat) (hk : k ≤ 255)
    (hlit0 : 0 ≤ lit) (hlitv : |(lit : ℚ) / ((dScale : Nat) : ℚ) - c| ≤ (2 : ℚ) ^ (-44 : ℤ))
    (hc0 : 0 ≤ c) (hc1 : c ≤ 1) :
    0 ≤ fmulInt lit (k : Int) ∧
    |(fmulInt lit (k : Int) : ℚ) / ((dScale : Nat) : ℚ) - c * k| ≤
      256 * (2 : ℚ) ^ (-44 : ℤ) ∧
    (fmulInt lit (k : Int) : ℚ) / ((dScale : Nat) : ℚ) ≤ c * 255 + 1 := by
  have hSq : ((dScale : Nat) : ℚ) = (2 : ℚ) ^ (116 : ℕ) := by norm_num [dScale]
  have hSpos : (0 : ℚ) < ((dScale : Nat) : ℚ) := by
    rw [hSq]; positivity
  have hε : (0 : ℚ) < (2 : ℚ) ^ (-44 : ℤ) := zpow_pos (by norm_num) _
  have hεsmall : (2 : ℚ) ^ (-44 : ℤ) ≤ 1 := by
    calc (2 : ℚ) ^ (-44 : ℤ) ≤ (2 : ℚ) ^ (0 : ℤ) := zpow_le_two_spec (by omega)
    _ = 1 := zpow_zero 2
  have hkq : ((k : Nat) : ℚ) ≤ 255 := by exact_mod_cast hk
  have hkq0 : (0 : ℚ) ≤ ((k : Nat) : ℚ) := by positivity
  -- value of lit is bounded: dVal lit ≤ c + ε ≤ 2
  have hlithi : (lit : ℚ) / ((dScale : Nat) : ℚ) ≤ c + (2 : ℚ) ^ (-44 : ℤ) := by
    have := abs_le.1 hlitv
    linarith [this.1, this.2]
  have hlitlo : (0 : ℚ) ≤ (lit : ℚ) / ((dScale : Nat) : ℚ) := by
    have : (0 : ℚ) ≤ (lit : ℚ) := by exact_mod_cast hlit0
    positivity
  -- integer bound on lit: lit ≤ 2 * dScale
  have hlitint : (lit : ℚ) ≤ 2 * ((dScale : Nat) : ℚ) := by
    have h2 : (lit : ℚ) / ((dScale : Nat) : ℚ) ≤ 2 := by linarith
    rw [div_le_iff₀ hSpos] at h2
    linarith
  -- the rounding error of the product
  have hz0 : (0 : Int) ≤ lit * (k : Int) := by positivity
  have hzq : ((lit * (k : Int) : Int) : ℚ) = (lit : ℚ) * k := by push_cast; ring
  have hzd : ((lit * (k : Int) : Int) : ℚ) ≤ 512 * (dScale : Nat) := by
    rw [hzq]
    calc (lit : ℚ) * k ≤ (2 * ((dScale : Nat) : ℚ)) * 255 := by
          apply mul_le_mul hlitint hkq hkq0
          positivity
    _ ≤ 512 * (dScale : Nat) := by linarith [hSpos]
  have hzb : lit * (k : Int) < 2 ^ 380 := by
    have hl2 : (lit : ℚ) ≤ 2 * ((2 : ℚ) ^ (116 : ℕ)) := by rw [← hSq]; exact hlitint
    have hlint : lit ≤ 2 * 2 ^ 116 := by exact_mod_cast hl2
    have hkint : (k : Int) ≤ 255 := by exact_mod_cast hk
    have : lit * (k : Int) ≤ (2 * 2 ^ 116) * 255 := by
      apply mul_le_mul hlint hkint (by positivity) (by positivity)
    calc lit * (k : Int) ≤ (2 * 2 ^ 116) * 255 := this
    _ < 2 ^ 380 := by norm_num
  have hdbig : (dScale : Nat) < 2 ^ 380 := by norm_num [dScale]
  have herr := roundQ_err (lit * (k : Int)) (dScale : Nat)
    hz0 (by norm_num [dScale]) hzd hzb hdbig
  refine ⟨roundQ_nonneg _ _ hz0, ?_, ?_⟩
  · -- |fmul/S - c*k| ≤ |fmul/S - lit*k/S| + |lit/S - c|*k ≤ ε + 255 ε
    have hsplit : (lit : ℚ) * k / ((dScale : Nat) : ℚ) - c * k =
        ((lit : ℚ) / ((dScale : Nat) : ℚ) - c) * k := by ring
    have habs2 : |(lit : ℚ) * k / ((dScale : Nat) : ℚ) - c * k| ≤
        (2 : ℚ) ^ (-44 : ℤ) * 255 := by
      rw [hsplit, abs_mul, abs_of_nonneg hkq0]
      apply mul_le_mul hlitv hkq hkq0 (le_of_lt hε)
    have htri := abs_sub_le ((fmulInt lit (k : Int) : ℚ) / ((dScale : Nat) : ℚ))
      ((lit : ℚ) * k / ((dScale : Nat) : ℚ)) (c * k)
    rw [fmulInt] at *
    rw [hzq] at herr
    calc |(roundQ (lit * (k : Int)) dScale : ℚ) / ((dScale : Nat) : ℚ) - c * k| ≤ _ := htri
    _ ≤ (2 : ℚ) ^ (-44 : ℤ) + (2 : ℚ) ^ (-44 : ℤ) * 255 := by
        apply add_le_add
        · exact herr
        · exact habs2
    _ = 256 * (2 : ℚ) ^ (-44 : ℤ) := by ring
  · -- value bound
    have hε8 : (2 : ℚ) ^ (-44 : ℤ) ≤ 1 / 256 := by
      calc (2 : ℚ) ^ (-44 : ℤ) ≤ (2 : ℚ) ^ (-8 : ℤ) := zpow_le_two_spec (by omega)
      _ = 1 / 256 := by
          rw [show ((-8 : ℤ)) = -((8 : ℕ) : ℤ) from by norm_num, zpow_neg, zpow_natCast]
          norm_num
    have habs := abs_le.1 herr
    rw [fmulInt]
    have hval : (lit : ℚ) * k / ((dScale : Nat) : ℚ) ≤ 255 + 255 * (2 : ℚ) ^ (-44 : ℤ) := by
      have hsplit : (lit : ℚ) * k / ((dScale : Nat) : ℚ) =
          ((lit : ℚ) / ((dScale : Nat) : ℚ)) * k := by ring
      rw [hsplit]
      calc ((lit : ℚ) / ((dScale : Nat) : ℚ)) * k ≤ (1 + (2 : ℚ) ^ (-44 : ℤ)) * 255 := by
            apply mul_le_mul (by linarith) hkq hkq0 (by linarith)
      _ = 255 + 255 * (2 : ℚ) ^ (-44 : ℤ) := by ring
    have hval2 : (lit : ℚ) * k / ((dScale : Nat) : ℚ) ≤ c * 255 + 255 * (2 : ℚ) ^ (-44 : ℤ) := by
      have hsplit : (lit : ℚ) * k / ((dScale : Nat) : ℚ) =
          ((lit : ℚ) / ((dScale : Nat) : ℚ)) * k := by ring
      rw [hsplit]
      calc ((lit : ℚ) / ((dScale : Nat) : ℚ)) * k ≤ (c + (2 : ℚ) ^ (-44 : ℤ)) * 255 := by
            apply mul_le_mul hlithi hkq hkq0 (by linarith)
      _ = c * 255 + 255 * (2 : ℚ) ^ (-44 : ℤ) := by ring
    rw [hzq] at habs
    linarith [habs.1, habs.2, hε8]

set_option maxHeartbeats 1000000 in
theorem floatLum_agree (r g b : Nat) (hr : r ≤ 255) (hg : g ≤ 255) (hb : b ≤ 255)
    (hne : 299 * r + 587 * g + 114 * b ≠ 127500) :
    ((2 * floatLum (r : Int) (g : Int) (b : Int) < ((dScale : Nat) : Int)) ↔
      ((299 * r + 587 * g + 114 * b : Nat) : ℚ) / 255000 < 1 / 2) := by
  have hSq : ((dScale : Nat) : ℚ) = (2 : ℚ) ^ (116 : ℕ) := by norm_num [dScale]
  have hSpos : (0 : ℚ) < ((dScale : Nat) : ℚ) := by rw [hSq]; positivity
  have hε : (0 : ℚ) < (2 : ℚ) ^ (-44 : ℤ) := zpow_pos (by norm_num) _
  have hεval : (2 : ℚ) ^ (-44 : ℤ) = 1 / 17592186044416 := by
    rw [show ((-44 : ℤ)) = -((44 : ℕ) : ℤ) from by norm_num, zpow_neg, zpow_natCast]
    norm_num
  -- literal errors
  have hl299 := roundQ_err 299 1000 (by norm_num) (by norm_num)
    (by push_cast; norm_num) (by norm_num) (by norm_num)
  have hl587 := roundQ_err 587 1000 (by norm_num) (by norm_num)
    (by push_cast; norm_num) (by norm_num) (by norm_num)
  have hl114 := roundQ_err 114 1000 (by norm_num) (by norm_num)
    (by push_cast; norm_num) (by norm_num) (by norm_num)
  have hc299 : ((299 : Int) : ℚ) / ((1000 : Nat) : ℚ) = 299 / 1000 := by push_cast; ring
  have hc587 : ((587 : Int) : ℚ) / ((1000 : Nat) : ℚ) = 587 / 1000 := by push_cast; ring
  have hc114 : ((114 : Int) : ℚ) / ((1000 : Nat) : ℚ) = 114 / 1000 := by push_cast; ring
  rw [hc299] at hl299
  rw [hc587] at hl587
  rw [hc114] at hl114
  -- per-channel products
  obtain ⟨ht10, ht1e, ht1v⟩ := fmul_channel lit299 (299 / 1000) r hr
    (roundQ_nonneg _ _ (by norm_num)) hl299 (by norm_num) (by norm_num)
  obtain ⟨ht20, ht2e, ht2v⟩ := fmul_channel lit587 (587 / 1000) g hg
    (roundQ_nonneg _ _ (by norm_num)) hl587 (by norm_num) (by norm_num)
  obtain ⟨ht30, ht3e, ht3v⟩ := fmul_channel lit114 (114 / 1000) b hb
    (roundQ_nonneg _ _ (by norm_num)) hl114 (by norm_num) (by norm_num)
  set t1 := fmulInt lit299 (r : Int) with ht1def
  set t2 := fmulInt lit587 (g : Int) with ht2def
  set t3 := fmulInt lit114 (b : Int) with ht3def
  -- integer size bounds from value bounds
  have hint : ∀ t : Int, 0 ≤ t → (t : ℚ) / ((dScale : Nat) : ℚ) ≤ 256 → t ≤ 256 * 2 ^ 116 := by
    intro t h0 hv
    rw [div_le_iff₀ hSpos, hSq] at hv
    exact_mod_cast hv
  have ht1i : t1 ≤ 256 * 2 ^ 116 := hint t1 ht10 (by linarith)
  have ht2i : t2 ≤ 256 * 2 ^ 116 := hint t2 ht20 (by linarith)
  have ht3i : t3 ≤ 256 * 2 ^ 116 := hint t3 ht30 (by linarith)
  -- first addition
  have hs1cast : ((t1 + t2 : Int) : ℚ) = (t1 : ℚ) + (t2 : ℚ) := by push_cast; ring
  have hs1e := roundQ_err (t1 + t2) dScale (add_nonneg ht10 ht20) (by norm_num [dScale])
    (by
      rw [hs1cast]
      have h1 : (t1 : ℚ) ≤ 256 * ((dScale : Nat) : ℚ) := by
        rw [← div_le_iff₀ hSpos]
        linarith
      have h2 : (t2 : ℚ) ≤ 256 * ((dScale : Nat) : ℚ) := by
        rw [← div_le_iff₀ hSpos]
        linarith
      linarith)
    (by
      calc t1 + t2 ≤ 256 * 2 ^ 116 + 256 * 2 ^ 116 := by linarith
      _ < 2 ^ 380 := by norm_num)
    (by norm_num [dScale])
  rw [hs1cast, add_div] at hs1e
  set s1 := fadd t1 t2 with hs1def
  have hs10 : (0 : Int) ≤ s1 := roundQ_nonneg _ _ (add_nonneg ht10 ht20)
  have hs1err : |(s1 : ℚ) / ((dScale : Nat) : ℚ) -
      (299 / 1000 * r + 587 / 1000 * g)| ≤ 513 * (2 : ℚ) ^ (-44 : ℤ) := by
    have htri := abs_sub_le ((s1 : ℚ) / ((dScale : Nat) : ℚ))
      ((t1 : ℚ) / ((dScale : Nat) : ℚ) + (t2 : ℚ) / ((dScale : Nat) : ℚ))
      (299 / 1000 * r + 587 / 1000 * g)
    have hsum : |(t1 : ℚ) / ((dScale : Nat) : ℚ) + (t2 : ℚ) / ((dScale : Nat) : ℚ) -
        (299 / 1000 * r + 587 / 1000 * g)| ≤ 512 * (2 : ℚ) ^ (-44 : ℤ) := by
      have h1 := abs_le.1 ht1e
      have h2 := abs_le.1 ht2e
      rw [abs_le]
      constructor <;> [linarith [h1.1, h2.1]; linarith [h1.2, h2.2]]
    calc |(s1 : ℚ) / ((dScale : Nat) : ℚ) - (299 / 1000 * r + 587 / 1000 * g)| ≤ _ := htri
    _ ≤ (2 : ℚ) ^ (-44 : ℤ) + 512 * (2 : ℚ) ^ (-44 : ℤ) := add_le_add hs1e hsum
    _ = 513 * (2 : ℚ) ^ (-44 : ℤ) := by ring
  have hs1v : (s1 : ℚ) / ((dScale : Nat) : ℚ) ≤ 300 := by
    have h1 := (abs_le.1 hs1err).2
    have hr' : ((r : Nat) : ℚ) ≤ 255 := by exact_mod_cast hr
    have hg' : ((g : Nat) : ℚ) ≤ 255 := by exact_mod_cast hg
    nlinarith [hεval]
  -- second addition
  have hs2cast : ((s1 + t3 : Int) : ℚ) = (s1 : ℚ) + (t3 : ℚ) := by push_cast; ring
  have hs1i : s1 ≤ 300 * 2 ^ 116 := by
    have := hs1v
    rw [div_le_iff₀ hSpos, hSq] at this
    exact_mod_cast this
  have hs2e := roundQ_err (s1 + t3) dScale (add_nonneg hs10 ht30) (by norm_num [dScale])
    (by
      rw [hs2cast]
      have h1 : (s1 : ℚ) ≤ 300 * ((dScale : Nat) : ℚ) := by
        rw [← div_le_iff₀ hSpos]
        linarith
      have h2 : (t3 : ℚ) ≤ 31 * ((dScale : Nat) : ℚ) := by
        rw [← div_le_iff₀ hSpos]
        linarith
      linarith)
    (by
      calc s1 + t3 ≤ 300 * 2 ^ 116 + 256 * 2 ^ 116 := by linarith
      _ < 2 ^ 380 := by norm_num)
    (by norm_num [dScale])
  rw [hs2cast, add_div] at hs2e
  set s2 := fadd s1 t3 with hs2def
  have hs20 : (0 : Int) ≤ s2 := roundQ_nonneg _ _ (add_nonneg hs10 ht30)
  have hNval : (299 / 1000 * (r : ℚ) + 587 / 1000 * g) + 114 / 1000 * b =
      ((299 * r + 587 * g + 114 * b : Nat) : ℚ) / 1000 := by
    push_cast
    ring
  have hs2err : |(s2 : ℚ) / ((dScale : Nat) : ℚ) -
      ((299 * r + 587 * g + 114 * b : Nat) : ℚ) / 1000| ≤ 770 * (2 : ℚ) ^ (-44 : ℤ) := by
    have htri := abs_sub_le ((s2 : ℚ) / ((dScale : Nat) : ℚ))
      ((s1 : ℚ) / ((dScale : Nat) : ℚ) + (t3 : ℚ) / ((dScale : Nat) : ℚ))
      (((299 * r + 587 * g + 114 * b : Nat) : ℚ) / 1000)
    have hsum : |(s1 : ℚ) / ((dScale : Nat) : ℚ) + (t3 : ℚ) / ((dScale : Nat) : ℚ) -
        ((299 * r + 587 * g + 114 * b : Nat) : ℚ) / 1000| ≤ 769 * (2 : ℚ) ^ (-44 : ℤ) := by
      rw [← hNval]
      have h1 := abs_le.1 hs1err
      have h2 := abs_le.1 ht3e
      rw [abs_le]
      constructor <;> [linarith [h1.1, h2.1]; linarith [h1.2, h2.2]]
    calc |(s2 : ℚ) / ((dScale : Nat) : ℚ) -
        ((299 * r + 587 * g + 114 * b : Nat) : ℚ) / 1000| ≤ _ := htri
    _ ≤ (2 : ℚ) ^ (-44 : ℤ) + 769 * (2 : ℚ) ^ (-44 : ℤ) := add_le_add hs2e hsum
    _ = 770 * (2 : ℚ) ^ (-44 : ℤ) := by ring
  have hs2v : (s2 : ℚ) / ((dScale : Nat) : ℚ) ≤ 400 := by
    have h1 := (abs_le.1 hs2err).2
    have hN1000 : ((299 * r + 587 * g + 114 * b : Nat) : ℚ) / 1000 ≤ 255 := by
      have : (299 * r + 587 * g + 114 * b : Nat) ≤ 255000 := by omega
      have hq : ((299 * r + 587 * g + 114 * b : Nat) : ℚ) ≤ 255000 := by exact_mod_cast this
      linarith
    nlinarith [hεval]
  have hs2i : s2 ≤ 400 * 2 ^ 116 := by
    have := hs2v
    rw [div_le_iff₀ hSpos, hSq] at this
    exact_mod_cast this
  -- final division
  have hLe := roundQ_err s2 (255 * dScale) hs20 (by norm_num [dScale])
    (by
      have h1 : (s2 : ℚ) ≤ 400 * ((dScale : Nat) : ℚ) := by
        rw [← div_le_iff₀ hSpos]
        linarith
      have h2 : ((255 * dScale : Nat) : ℚ) = 255 * ((dScale : Nat) : ℚ) := by push_cast; ring
      rw [h2]
      nlinarith [hSpos])
    (by
      calc s2 ≤ 400 * 2 ^ 116 := hs2i
      _ < 2 ^ 380 := by norm_num)
    (by norm_num [dScale])
  set L := fdiv255 s2 with hLdef
  have hLval : |(L : ℚ) / ((dScale : Nat) : ℚ) -
      ((299 * r + 587 * g + 114 * b : Nat) : ℚ) / 255000| ≤ 775 * (2 : ℚ) ^ (-44 : ℤ) := by
    have hdd : ((255 * dScale : Nat) : ℚ) = 255 * ((dScale : Nat) : ℚ) := by push_cast; ring
    rw [hdd] at hLe
    have hmid : |(s2 : ℚ) / (255 * ((dScale : Nat) : ℚ)) -
        ((299 * r + 587 * g + 114 * b : Nat) : ℚ) / 255000| ≤
        (770 / 255) * (2 : ℚ) ^ (-44 : ℤ) := by
      have hkey : (s2 : ℚ) / (255 * ((dScale : Nat) : ℚ)) -
          ((299 * r + 587 * g + 114 * b : Nat) : ℚ) / 255000 =
          ((s2 : ℚ) / ((dScale : Nat) : ℚ) -
            ((299 * r + 587 * g + 114 * b : Nat) : ℚ) / 1000) / 255 := by
        field_simp
        ring
      rw [hkey, abs_div, abs_of_pos (by norm_num : (0:ℚ) < 255)]
      rw [div_le_iff₀ (by norm_num : (0:ℚ) < 255)]
      calc |(s2 : ℚ) / ((dScale : Nat) : ℚ) -
          ((299 * r + 587 * g + 114 * b : Nat) : ℚ) / 1000| ≤
          770 * (2 : ℚ) ^ (-44 : ℤ) := hs2err
      _ = (770 / 255) * (2 : ℚ) ^ (-44 : ℤ) * 255 := by ring
    have htri := abs_sub_le ((L : ℚ) / ((dScale : Nat) : ℚ))
      ((s2 : ℚ) / (255 * ((dScale : Nat) : ℚ)))
      (((299 * r + 587 * g + 114 * b : Nat) : ℚ) / 255000)
    calc |(L : ℚ) / ((dScale : Nat) : ℚ) -
        ((299 * r + 587 * g + 114 * b : Nat) : ℚ) / 255000| ≤ _ := htri
    _ ≤ (2 : ℚ) ^ (-44 : ℤ) + (770 / 255) * (2 : ℚ) ^ (-44 : ℤ) := add_le_add hLe hmid
    _ ≤ 775 * (2 : ℚ) ^ (-44 : ℤ) := by nlinarith [hε]
  -- the bridge between the Int comparison and the value comparison
  have hbridge : (2 * floatLum (r : Int) (g : Int) (b : Int) < ((dScale : Nat) : Int)) ↔
      (L : ℚ) / ((dScale : Nat) : ℚ) < 1 / 2 := by
    have hfl : floatLum (r : Int) (g : Int) (b : Int) = L := by
      rw [hLdef, hs2def, hs1def, ht1def, ht2def, ht3def, floatLum]
    rw [hfl, div_lt_iff₀ hSpos]
    constructor
    · intro h
      have : ((2 * L : Int) : ℚ) < ((dScale : Nat) : ℚ) := by exact_mod_cast h
      push_cast at this
      linarith
    · intro h
      have : ((2 * L : Int) : ℚ) < ((dScale : Nat) : ℚ) := by push_cast; linarith
      exact_mod_cast this
  rw [hbridge]
  have habs := abs_le.1 hLval
  rcases Nat.lt_or_ge (299 * r + 587 * g + 114 * b) 127500 with hc | hc
  · have h1 : ((299 * r + 587 * g + 114 * b : Nat) : ℚ) ≤ 127499 := by
      have : (299 * r + 587 * g + 114 * b : Nat) ≤ 127499 := by omega
      exact_mod_cast this
    constructor
    · intro _
      rw [div_lt_iff₀ (by norm_num : (0:ℚ) < 255000)]
      linarith
    · intro _
      linarith [habs.2, hεval]
  · have h2 : (127501 : ℚ) ≤ ((299 * r + 587 * g + 114 * b : Nat) : ℚ) := by
      have : 127501 ≤ (299 * r + 587 * g + 114 * b : Nat) := by omega
      exact_mod_cast this
    constructor
    · intro hLlt
      exfalso
      linarith [habs.1, hεval]
    · intro hNlt
      exfalso
      rw [div_lt_iff₀ (by norm_num : (0:ℚ) < 255000)] at hNlt
      linarith

theorem hexVal_le_15 {c : Char} (h : isHexB c = true) : hexVal c ≤ 15 := by
  have hm : c ∈ hexDigits := of_decide_eq_true h
  fin_cases hm <;> decide

/-! ## C2 -/

/-- C2 counterexample. The well-formed background `#00cc44` has exact
luminance exactly `0.5`, so the claim ("dark exactly when L < 0.5") says
light; but CPython's double arithmetic computes `0.49999999999999994 < 0.5`
and the program returns dark, as does this bit-exact model. -/
theorem is_dark_theme_boundary_dark :
    wellFormedColor ("#00cc44") = true ∧
    specLum ("#00cc44") = 1 / 2 ∧
    is_dark_theme (bgPal ("#00cc44")) = true := by
  refine ⟨by decide, ?_, by decide⟩
  rw [specLum.eq_def, show ("#00cc44").data = ['#', '0', '0', 'c', 'c', '4', '4'] from rfl]
  norm_num [show hexVal '0' = 0 from rfl, show hexVal 'c' = 12 from rfl,
    show hexVal '4' = 4 from rfl]

/-- C2 (amended). `is_dark_theme` reads the background color (white default
when absent), parses it as three 8-bit channels and returns dark (`true`)
exactly when the IEEE-double evaluation of
`(0.299*R + 0.587*G + 0.114*B)/255` is below `0.5`; for every well-formed
background whose exact luminance differs from `0.5` this agrees with the
exact comparison `L < 0.5` (at exact-boundary colors double rounding
decides, see the counterexample); in particular it is light when the
background is absent, dark for `#000000`, light for `#ffffff` and light for
`#808080`. -/
theorem is_dark_theme_luminance_double (p : Palette) :
    (p Category.background = none → is_dark_theme p = false) ∧
    (∀ s : String, p Category.background = some s → wellFormedColor s = true →
      specLum s ≠ 1 / 2 → (is_dark_theme p = true ↔ specLum s < 1 / 2)) ∧
    is_dark_theme (bgPal ("#000000")) = true ∧
    is_dark_theme (bgPal ("#ffffff")) = false ∧
    is_dark_theme (bgPal ("#808080")) = false := by
  refine ⟨?_, ?_, by decide, by decide, by decide⟩
  · intro h
    simp only [is_dark_theme, h, Option.getD_none]
    decide
  · intro s hs hwf hne
    cases hdata : s.data with
    | nil => rw [wellFormedColor.eq_def, hdata] at hwf; simp at hwf
    | cons c ds =>
      rw [wellFormedColor.eq_def, hdata] at hwf
      simp only [Bool.and_eq_true, Bool.or_eq_true, decide_eq_true_eq,
        List.all_eq_true] at hwf
      obtain ⟨⟨hc, hall⟩, hlen⟩ := hwf
      subst hc
      simp only [is_dark_theme, hs, Option.getD_some]
      rw [specLum.eq_def, hdata] at hne ⊢
      simp only [reduceIte] at hne ⊢
      rcases hlen with h3 | h6
      · obtain ⟨a, b, c, rfl⟩ := List.length_eq_three.mp h3
        have ha : isHexB a = true := hall a (by simp)
        have hb : isHexB b = true := hall b (by simp)
        have hcx : isHexB c = true := hall c (by simp)
        have hexp : expand3 [a, b, c] = [a, a, b, b, c, c] := by simp [expand3]
        rw [pyChannels.eq_def, lstripHash_cons_hex _ ha, hexp]
        have s1 : pySlice [a, a, b, b, c, c] 0 2 = [a, a] := rfl
        have s2 : pySlice [a, a, b, b, c, c] 2 4 = [b, b] := rfl
        have s3 : pySlice [a, a, b, b, c, c] 4 6 = [c, c] := rfl
        simp only [s1, s2, s3, parseInt16_hex2 ha ha, parseInt16_hex2 hb hb,
          parseInt16_hex2 hcx hcx]
        rw [decide_eq_true_iff]
        have hra : 16 * hexVal a + hexVal a ≤ 255 := by have := hexVal_le_15 ha; omega
        have hrb : 16 * hexVal b + hexVal b ≤ 255 := by have := hexVal_le_15 hb; omega
        have hrc : 16 * hexVal c + hexVal c ≤ 255 := by have := hexVal_le_15 hcx; omega
        have hNne : 299 * (16 * hexVal a + hexVal a) + 587 * (16 * hexVal b + hexVal b) +
            114 * (16 * hexVal c + hexVal c) ≠ 127500 := by
          intro hNeq
          apply hne
          rw [div_eq_iff (by norm_num : (255000 : ℚ) ≠ 0)]
          have hq : ((299 * (16 * hexVal a + hexVal a) + 587 * (16 * hexVal b + hexVal b) +
              114 * (16 * hexVal c + hexVal c) : Nat) : ℚ) = 127500 := by
            exact_mod_cast hNeq
          push_cast at hq
          nlinarith [hq]
        rw [floatLum_agree _ _ _ hra hrb hrc hNne]
        have heq : ((299 * (16 * hexVal a + hexVal a) + 587 * (16 * hexVal b + hexVal b) +
            114 * (16 * hexVal c + hexVal c) : Nat) : ℚ) =
            (299 * (17 * (hexVal a : ℚ)) + 587 * (17 * (hexVal b : ℚ)) +
              114 * (17 * (hexVal c : ℚ))) := by push_cast; ring
        rw [heq]
      · obtain ⟨a, b, c, d, e, f, rfl⟩ := list_eq_six h6
        have ha : isHexB a = true := hall a (by simp)
        have hb : isHexB b = true := hall b (by simp)
        have hcx : isHexB c = true := hall c (by simp)
        have hd : isHexB d = true := hall d (by simp)
        have he : isHexB e = true := hall e (by simp)
        have hf : isHexB f = true := hall f (by simp)
        have hexp : expand3 [a, b, c, d, e, f] = [a, b, c, d, e, f] := by simp [expand3]
        rw [pyChannels.eq_def, lstripHash_cons_hex _ ha, hexp]
        have s1 : pySlice [a, b, c, d, e, f] 0 2 = [a, b] := rfl
        have s2 : pySlice [a, b, c, d, e, f] 2 4 = [c, d] := rfl
        have s3 : pySlice [a, b, c, d, e, f] 4 6 = [e, f] := rfl
        simp only [s1, s2, s3, parseInt16_hex2 ha hb, parseInt16_hex2 hcx hd,
          parseInt16_hex2 he hf]
        rw [decide_eq_true_iff]
        have hra : 16 * hexVal a + hexVal b ≤ 255 := by
          have h1 := hexVal_le_15 ha
          have h2 := hexVal_le_15 hb
          omega
        have hrb : 16 * hexVal c + hexVal d ≤ 255 := by
          have h1 := hexVal_le_15 hcx
          have h2 := hexVal_le_15 hd
          omega
        have hrc : 16 * hexVal e + hexVal f ≤ 255 := by
          have h1 := hexVal_le_15 he
          have h2 := hexVal_le_15 hf
          omega
        have hNne : 299 * (16 * hexVal a + hexVal b) + 587 * (16 * hexVal c + hexVal d) +
            114 * (16 * hexVal e + hexVal f) ≠ 127500 := by
          intro hNeq
          apply hne
          rw [div_eq_iff (by norm_num : (255000 : ℚ) ≠ 0)]
          have hq : ((299 * (16 * hexVal a + hexVal b) + 587 * (16 * hexVal c + hexVal d) +
              114 * (16 * hexVal e + hexVal f) : Nat) : ℚ) = 127500 := by
            exact_mod_cast hNeq
          push_cast at hq
          nlinarith [hq]
        rw [floatLum_agree _ _ _ hra hrb hrc hNne]
        have heq : ((299 * (16 * hexVal a + hexVal b) + 587 * (16 * hexVal c + hexVal d) +
            114 * (16 * hexVal e + hexVal f) : Nat) : ℚ) =
            (299 * (16 * (hexVal a : ℚ) + (hexVal b : ℚ)) +
              587 * (16 * (hexVal c : ℚ) + (hexVal d : ℚ)) +
              114 * (16 * (hexVal e : ℚ) + (hexVal f : ℚ))) := by push_cast; ring
        rw [heq]

/-- Witness for the amended C2: absent background classifies light. -/
theorem is_dark_theme_luminance_double_w : is_dark_theme emptyPalette = false :=
  (is_dark_theme_luminance_double emptyPalette).1 rfl

/-! ## C7 -/

/-- C7 counterexample. `#fffff` (5 hex digits) is not a well-formed 3-
or 6-digit hex color, yet `is_dark_theme` classifies it as light (`false`),
not dark: Python's channel slicing parses `ff`, `ff`, `f` without error. -/
theorem is_dark_theme_five_digit_light :
    bgPal ("#fffff") Category.background = some ("#fffff") ∧
    wellFormedColor ("#fffff") = false ∧
    is_dark_theme (bgPal ("#fffff")) = false := by
  exact ⟨rfl, by decide, by decide⟩

/-- C7 (amended). Whenever the background value is present and channel
parsing fails (any of the three slices of the normalized value is not a
valid base-16 integer literal), `is_dark_theme` returns dark (`true`); the
embedding is total, so no error can surface. (But a value unparseable as a
3- or 6-digit hex color may still parse channel-wise and yield light, see
the counterexample.) -/
theorem is_dark_theme_parse_failure_dark (p : Palette) (s : String)
    (hs : p Category.background = some s) (hp : pyChannels s.data = none) :
    is_dark_theme p = true := by
  simp only [is_dark_theme, hs, Option.getD_some, hp]

/-- Witness for the amended C7: `#xyz` has no parseable channels. -/
theorem is_dark_theme_parse_failure_dark_w :
    is_dark_theme (bgPal ("#xyz")) = true :=
  is_dark_theme_parse_failure_dark (bgPal ("#xyz")) ("#xyz") rfl (by decide)

/-! ## C8 -/

/-- C8. A 3-digit hex background `#abc` classifies exactly like its
6-digit expansion `#aabbcc` obtained by duplicating each digit. -/
theorem is_dark_theme_three_digit_expand (a b c : Char)
    (ha : isHexB a = true) (hb : isHexB b = true) (hc : isHexB c = true) :
    is_dark_theme (bgPal (String.mk ['#', a, b, c])) =
      is_dark_theme (bgPal (String.mk ['#', a, a, b, b, c, c])) := by
  have hexp : expand3 [a, b, c] = [a, a, b, b, c, c] := by simp [expand3]
  have hexp6 : expand3 [a, a, b, b, c, c] = [a, a, b, b, c, c] := by simp [expand3]
  have hbg3 : bgPal (String.mk ['#', a, b, c]) Category.background =
      some (String.mk ['#', a, b, c]) := rfl
  have hbg6 : bgPal (String.mk ['#', a, a, b, b, c, c]) Category.background =
      some (String.mk ['#', a, a, b, b, c, c]) := rfl
  simp only [is_dark_theme, hbg3, hbg6, Option.getD_some]
  rw [pyChannels.eq_def, pyChannels.eq_def, lstripHash_cons_hex _ ha,
    lstripHash_cons_hex _ ha, hexp, hexp6]

/-- Witness for C8 at `#000` / `#000000`. -/
theorem is_dark_theme_three_digit_expand_w :
    is_dark_theme (bgPal (String.mk ['#', '0', '0', '0'])) =
      is_dark_theme (bgPal (String.mk ['#', '0', '0', '0', '0', '0', '0'])) :=
  is_dark_theme_three_digit_expand '0' '0' '0' (by decide) (by decide) (by decide)

/-! ## C9 -/

theorem containsSub_iff (needle hay : List Char) :
    containsSub needle hay = true ↔ needle <:+: hay := by
  induction hay with
  | nil =>
    simp [containsSub, List.infix_nil]
  | cons c cs ih =>
    rw [containsSub, Bool.or_eq_true, List.infix_cons_iff, ih]
    simp [ List.isPrefixOf_iff_prefix]

theorem marker_infix_generate (mc : MetalColorSet) :
    vectorMarker.data <:+: (generate_metal_css mc).data := by
  refine ⟨(".hljs-type\x7bcolor:").data ++ mc.type.data ++ (";font-style:italic\x7d").data,
    ("\x7bcolor:").data ++ mc.vector.data ++ ((";font-weight:700\x7d") ++
      (".hljs-type-matrix\x7bcolor:" ++ mc.matrix ++ ";font-weight:700\x7d") ++
      (".hljs-type-texture\x7bcolor:" ++ mc.texture ++ ";font-weight:700\x7d") ++
      (".hljs-title.function\x7bcolor:" ++ mc.function ++ ";font-weight:400\x7d")).data, ?_⟩
  simp only [generate_metal_css, vectorMarker, String.data_append, List.append_assoc,
    List.cons_append, List.nil_append]

/-- C9. `has_metal_classes` returns true iff the marker selector
`.hljs-type-vector` appears literally in the text; appending the generated
rules to any document makes it return true. -/
theorem has_metal_classes_iff_marker :
    (∀ s : String, has_metal_classes s = true ↔ vectorMarker.data <:+: s.data) ∧
    (∀ (s : String) (mc : MetalColorSet),
      has_metal_classes (s ++ generate_metal_css mc) = true) := by
  constructor
  · intro s
    exact containsSub_iff vectorMarker.data s.data
  · intro s mc
    refine (containsSub_iff vectorMarker.data (s ++ generate_metal_css mc).data).2 ?_
    obtain ⟨u, v, huv⟩ := marker_infix_generate mc
    exact ⟨s.data ++ u, v, by rw [String.data_append, ← huv]; simp [List.append_assoc]⟩

/-! ## C10 -/

/-- C10. On every non-success path — already augmented, empty extracted
palette, or trimmed text not ending in a closing brace — `update_css_file`
reports failure and the stored text is unchanged; conversely any of the
three guard failures forces the failure path. -/
theorem update_css_file_failure_is_noop (stored : String) :
    ((update_css_file stored).2 = false → (update_css_file stored).1 = stored) ∧
    (has_metal_classes stored = true ∨ paletteEmpty (extract_colors stored) = true ∨
      (pyRstrip stored.data).getLast? ≠ some ('\x7d') →
      update_css_file stored = (stored, false)) := by
  by_cases h1 : has_metal_classes stored
  · constructor
    · intro _
      simp [update_css_file, h1]
    · intro _
      simp [update_css_file, h1]
  · by_cases h2 : paletteEmpty (extract_colors stored)
    · constructor
      · intro _
        simp [update_css_file, h1, h2]
      · intro _
        simp [update_css_file, h1, h2]
    · by_cases h3 : (pyRstrip stored.data).getLast? = some ('\x7d')
      · constructor
        · intro hf
          exfalso
          simp only [update_css_file, h1, h2] at hf
          rw [if_neg (by simp [h1]), if_neg (by simp [h2])] at hf
          rw [if_pos (by exact h3)] at hf
          simp at hf
        · intro hd
          rcases hd with hd | hd | hd
          · exact absurd hd (by simp [h1])
          · exact absurd hd (by simp [h2])
          · exact absurd h3 hd
      · constructor
        · intro _
          simp only [update_css_file]
          rw [if_neg (by simp [h1]), if_neg (by simp [h2]), if_neg (by exact h3)]
        · intro _
          simp only [update_css_file]
          rw [if_neg (by simp [h1]), if_neg (by simp [h2]), if_neg (by exact h3)]

/-- Witness for C10 on an already-augmented document. -/
theorem update_css_file_failure_is_noop_w :
    update_css_file (".hljs-type-vector\x7bcolor:#fff\x7d") =
      ((".hljs-type-vector\x7bcolor:#fff\x7d"), false) :=
  (update_css_file_failure_is_noop (".hljs-type-vector\x7bcolor:#fff\x7d")).2
    (Or.inl (by decide))

/-! ## C6 -/

/-- C6 counterexample. The document `.hljs{color:#abc123}` followed by
a newline passes every guard of `update_css_file` (success flag true), yet
the original text is not even a prefix of the output: the trailing newline
is removed before the rules are appended. -/
theorem update_css_file_strips_trailing_newline :
    (update_css_file (".hljs\x7bcolor:#abc123\x7d\n")).2 = true ∧
    (".hljs\x7bcolor:#abc123\x7d\n").data.isPrefixOf
      ((update_css_file (".hljs\x7bcolor:#abc123\x7d\n")).1).data = false := by
  exact ⟨by decide, by decide⟩

/-- C6 (amended). For every document passing the guards (not already
augmented, non-empty palette, right-trimmed text ending in `}`), the output
is exactly the right-trimmed original with the five rendered rules appended;
the right-trimmed original is a prefix of the original, so no character
before the trailing whitespace is removed or altered, and when the original
already ends in `}` (no trailing whitespace) the output is exactly the
original with the rules appended. -/
theorem update_css_file_appends_to_trimmed (content : String)
    (h1 : has_metal_classes content = false)
    (h2 : paletteEmpty (extract_colors content) = false)
    (h3 : (pyRstrip content.data).getLast? = some ('\x7d')) :
    update_css_file content =
      (String.mk (pyRstrip content.data) ++
        generate_metal_css (select_metal_colors (extract_colors content)
          (is_dark_theme (extract_colors content))), true) ∧
    pyRstrip content.data <+: content.data ∧
    (content.data.getLast? = some ('\x7d') → pyRstrip content.data = content.data) := by
  refine ⟨?_, ?_, ?_⟩
  · simp only [update_css_file]
    rw [if_neg (by simp [h1]), if_neg (by simp [h2]), if_pos (by exact h3)]
  · have hsuf := List.dropWhile_suffix (l := content.data.reverse) isPySpace
    have hpre := ( List.reverse_prefix).2 hsuf
    rwa [List.reverse_reverse] at hpre
  · intro hlast
    have hrev : content.data.reverse.head? = some ('\x7d') := by
      rw [List.head?_reverse]; exact hlast
    cases hr : content.data.reverse with
    | nil => rw [hr] at hrev; simp at hrev
    | cons c t =>
      rw [hr] at hrev
      simp only [List.head?_cons, Option.some.injEq] at hrev
      subst hrev
      have : pyRstrip content.data = ('\x7d' :: t).reverse := by
        rw [pyRstrip, hr, dropWhile_cons_false (by decide)]
      rw [this, ← hr, List.reverse_reverse]

/-- Witness for the amended C6 on `.hljs{color:#abc123}`. -/
theorem update_css_file_appends_to_trimmed_w :
    update_css_file (".hljs\x7bcolor:#abc123\x7d") =
      (String.mk (pyRstrip (".hljs\x7bcolor:#abc123\x7d").data) ++
        generate_metal_css (select_metal_colors (extract_colors (".hljs\x7bcolor:#abc123\x7d"))
          (is_dark_theme (extract_colors (".hljs\x7bcolor:#abc123\x7d")))), true) :=
  (update_css_file_appends_to_trimmed (".hljs\x7bcolor:#abc123\x7d")
    (by decide) (by decide) (by decide)).1

/-! ## C4 -/

theorem captureHex_shape {l r : List Char} (h : captureHex l = some r) :
    ∃ ds, r = '#' :: ds ∧ 3 ≤ ds.length ∧ ds.length ≤ 6 ∧ ∀ d ∈ ds, isHexB d = true := by
  cases l with
  | nil => simp [captureHex] at h
  | cons c cs =>
    simp only [captureHex] at h
    by_cases hc : c = '#'
    · rw [if_pos hc] at h
      by_cases h3 : 3 ≤ ((cs.takeWhile isHexB).take 6).length
      · rw [if_pos h3] at h
        injection h with h'
        refine ⟨(cs.takeWhile isHexB).take 6, ?_, h3, List.length_take_le _ _, ?_⟩
        · rw [← h', hc]
        · intro d hd
          simpa using List.mem_takeWhile_imp (List.take_subset _ _ hd)
      · rw [if_neg h3] at h
        exact absurd h (by simp)
    · rw [if_neg hc] at h
      exact absurd h (by simp)

theorem matchAt_shape {ts : List RTok} {l r : List Char} (h : matchAt ts l = some r) :
    ∃ ds, r = '#' :: ds ∧ 3 ≤ ds.length ∧ ds.length ≤ 6 ∧ ∀ d ∈ ds, isHexB d = true := by
  obtain ⟨a, -, ha⟩ := List.exists_of_findSome?_eq_some h
  exact captureHex_shape ha

theorem searchAux_shape {ts : List RTok} :
    ∀ {l r : List Char}, searchAux ts l = some r →
      ∃ ds, r = '#' :: ds ∧ 3 ≤ ds.length ∧ ds.length ≤ 6 ∧ ∀ d ∈ ds, isHexB d = true := by
  intro l
  induction l with
  | nil => exact fun h => matchAt_shape h
  | cons c cs ih =>
    intro r h
    simp only [searchAux] at h
    cases hm : matchAt ts (c :: cs) with
    | some r' =>
      rw [hm] at h
      injection h with h'
      subst h'
      exact matchAt_shape hm
    | none =>
      rw [hm] at h
      exact ih h

theorem extract_foldl_shape (doc : List Char) :
    ∀ (ps : List (List RTok × Category)) (acc : Palette),
      (∀ c s, acc c = some s → hexColorShape s) →
      ∀ c s,
        (ps.foldl (fun a q => insertIfAbsent a q.2 ((searchAux q.1 doc).map String.mk)) acc) c =
          some s →
        hexColorShape s := by
  intro ps
  induction ps with
  | nil => exact fun acc hacc c s h => hacc c s h
  | cons q qs ih =>
    intro acc hacc c s h
    rw [List.foldl_cons] at h
    refine ih _ ?_ c s h
    intro c' s' h'
    cases hv : searchAux q.1 doc with
    | none =>
      rw [insertIfAbsent.eq_def, hv] at h'
      exact hacc _ _ h'
    | some r =>
      simp only [insertIfAbsent, hv, Option.map_some'] at h'
      by_cases hsome : ((acc q.2).isSome : Bool) = true
      · rw [if_pos hsome] at h'
        exact hacc _ _ h'
      · rw [if_neg hsome] at h'
        by_cases hc : c' = q.2
        · rw [if_pos hc] at h'
          injection h' with h''
          obtain ⟨ds, hr, hd3, hd6, hdh⟩ := searchAux_shape hv
          exact ⟨ds, by rw [← h'']; exact hr, hd3, hd6, hdh⟩
        · rw [if_neg hc] at h'
          exact hacc _ _ h'

/-- C4 counterexample. On `.hljs-type{color:#abcd}` the captured type
color is `#abcd`, with 4 hex digits — neither 3 nor 6 — so the claim as
stated is false. -/
theorem extract_colors_four_digit_capture :
    extract_colors (".hljs-type\x7bcolor:#abcd\x7d") Category.type = some ("#abcd") ∧
    ¬ (∀ (c : Category) (s : String),
        extract_colors (".hljs-type\x7bcolor:#abcd\x7d") c = some s →
        ∃ ds, s.data = '#' :: ds ∧ (ds.length = 3 ∨ ds.length = 6)) := by
  constructor
  · decide
  · intro h
    obtain ⟨ds, hds, hlen⟩ := h Category.type ("#abcd") (by decide)
    have hds' : ds = ['a', 'b', 'c', 'd'] := by
      have h2 : ('#' :: ds : List Char) = ['#', 'a', 'b', 'c', 'd'] := hds.symm.trans rfl
      simpa using h2
    subst hds'
    simp at hlen

/-- C4 (amended). Every color value in the palette returned by
`extract_colors` is `#` followed by a hex digit sequence of length at least
3 and at most 6 (the capture class is `{3,6}`, so 4- and 5-digit values are
possible). -/
theorem extract_colors_value_hex_shape :
    ∀ (doc : String) (c : Category) (s : String),
      extract_colors doc c = some s → hexColorShape s :=
  fun doc c s h =>
    extract_foldl_shape doc.data patternList emptyPalette
      (fun _ _ h' => by simp [emptyPalette] at h') c s h

/-- Witness for the amended C4. -/
theorem extract_colors_value_hex_shape_w : hexColorShape ("#abc123") :=
  extract_colors_value_hex_shape (".hljs-type\x7bcolor:#abc123\x7d") Category.type
    ("#abc123") (by decide)

/-! ## C5 -/

theorem insertIfAbsent_ne {acc : Palette} {n c : Category} {v : Option String}
    (h : c ≠ n) : insertIfAbsent acc n v c = acc c := by
  cases v with
  | none => rfl
  | some col =>
    simp only [insertIfAbsent]
    by_cases hs : ((acc n).isSome : Bool) = true
    · rw [if_pos hs]
    · rw [if_neg hs]
      show (if c = n then some col else acc c) = acc c
      rw [if_neg h]

theorem extract_foldl_charac (doc : List Char) :
    ∀ (ps : List (List RTok × Category)) (acc : Palette) (c : Category),
      (ps.foldl (fun a q => insertIfAbsent a q.2 ((searchAux q.1 doc).map String.mk)) acc) c =
        optOr (acc c)
          ((ps.filter (fun q => decide (q.2 = c))).findSome?
            (fun q => (searchAux q.1 doc).map String.mk)) := by
  intro ps
  induction ps with
  | nil =>
    intro acc c
    cases h : acc c <;> simp [optOr, h]
  | cons q qs ih =>
    intro acc c
    rw [List.foldl_cons, ih]
    by_cases hqc : q.2 = c
    · subst hqc
      rw [List.filter_cons_of_pos (by simp), List.findSome?_cons]
      cases hv : (searchAux q.1 doc).map String.mk with
      | none =>
        simp [insertIfAbsent]
      | some col =>
        cases hacc : acc q.2 with
        | some w => simp [insertIfAbsent, hacc, optOr]
        | none => simp [insertIfAbsent, hacc, optOr]
    · have hne : c ≠ q.2 := fun hx => hqc hx.symm
      rw [List.filter_cons_of_neg (by simpa using hqc), insertIfAbsent_ne hne]

theorem searchAux_leftmost (ts : List RTok) :
    ∀ (l r : List Char), searchAux ts l = some r →
      ∃ i, matchAt ts (l.drop i) = some r ∧ ∀ j < i, matchAt ts (l.drop j) = none := by
  intro l
  induction l with
  | nil =>
    intro r h
    exact ⟨0, h, fun j hj => absurd hj (by omega)⟩
  | cons c cs ih =>
    intro r h
    simp only [searchAux] at h
    cases hm : matchAt ts (c :: cs) with
    | some r' =>
      rw [hm] at h
      injection h with h'
      subst h'
      exact ⟨0, hm, fun j hj => absurd hj (by omega)⟩
    | none =>
      rw [hm] at h
      obtain ⟨i, hi, hj⟩ := ih r h
      refine ⟨i + 1, by simpa using hi, ?_⟩
      intro j hjlt
      cases j with
      | zero => simpa using hm
      | succ j' =>
        have hj' : j' < i := by omega
        simpa using hj j' hj'

/-- C5 counterexample. In
`.hljs-keyword,.x{color:#111111}.hljs-keyword{color:#222222}` the earlier
occurrence (the comma shape, recognized by the keyword comma pattern at
position 0, color `#111111`) is ignored: `extract_colors` returns the later
bare occurrence's `#222222`, because the bare pattern is tried first over
the whole document. -/
theorem extract_colors_later_bare_beats_earlier_comma :
    matchAt kwCommaPat
      ((".hljs-keyword,.x\x7bcolor:#111111\x7d.hljs-keyword\x7bcolor:#222222\x7d").data) =
      some (("#111111").data) ∧
    extract_colors
      (".hljs-keyword,.x\x7bcolor:#111111\x7d.hljs-keyword\x7bcolor:#222222\x7d")
      Category.keyword = some ("#222222") := by
  exact ⟨by decide, by decide⟩

/-- C5 (amended). For each category the patterns are tried in the fixed
source order, and the first pattern that matches anywhere in the document
supplies the color; only within a single pattern does the earliest document
position win (`re.search` returns the leftmost match). -/
theorem extract_colors_pattern_priority :
    (∀ (doc : String) (c : Category),
      extract_colors doc c =
        (patternList.filter (fun q => decide (q.2 = c))).findSome?
          (fun q => (searchAux q.1 doc.data).map String.mk)) ∧
    (∀ (ts : List RTok) (l r : List Char), searchAux ts l = some r →
      ∃ i, matchAt ts (l.drop i) = some r ∧ ∀ j < i, matchAt ts (l.drop j) = none) := by
  constructor
  · intro doc c
    exact extract_foldl_charac doc.data patternList emptyPalette c
  · exact searchAux_leftmost

/-- Witness for the amended C5: the bare type pattern matches
`.hljs-type{color:#abc}` leftmost. -/
theorem extract_colors_pattern_priority_w :
    ∃ i, matchAt (barePat (".hljs-type"))
        ((".hljs-type\x7bcolor:#abc\x7d").data.drop i) = some (("#abc").data) ∧
      ∀ j < i, matchAt (barePat (".hljs-type"))
        ((".hljs-type\x7bcolor:#abc\x7d").data.drop j) = none :=
  extract_colors_pattern_priority.2 (barePat (".hljs-type"))
    ((".hljs-type\x7bcolor:#abc\x7d").data) (("#abc").data) (by decide)

/-! ## C3 -/

/-- C3 counterexample. The `type` category is recognized with a bare
class selector but not when `.hljs-type` is first in a comma-separated
selector list: its single pattern requires an immediately following brace. -/
theorem extract_colors_type_comma_missed :
    extract_colors (bareDoc (".hljs-type")) Category.type = some ("#abc") ∧
    extract_colors (commaDoc (".hljs-type")) Category.type = none := by
  exact ⟨by decide, by decide⟩

/-- C3 (amended). On canonical single-rule documents: every category's
color is recognized when the rule uses a bare class selector (for
`function`, the class is the compound `.hljs-title.function_`, and the
descendant shape `.hljs-function .hljs-title` is also recognized); the
comma-separated grouped shape is additionally recognized for the 11
categories keyword, number, literal, string, built_in, function, attribute,
name, variable, symbol and meta, but not for type, base or background,
whose patterns require a brace immediately after the class; the
joined-sibling shape (`.category.other{...}`) is recognized for no
category. -/
theorem extract_colors_selector_shapes :
    (extract_colors (bareDoc (".hljs-type")) Category.type = some ("#abc") ∧
     extract_colors (bareDoc (".hljs-keyword")) Category.keyword = some ("#abc") ∧
     extract_colors (bareDoc (".hljs-number")) Category.number = some ("#abc") ∧
     extract_colors (bareDoc (".hljs-literal")) Category.literal = some ("#abc") ∧
     extract_colors (bareDoc (".hljs-string")) Category.string = some ("#abc") ∧
     extract_colors (bareDoc (".hljs-built_in")) Category.built_in = some ("#abc") ∧
     extract_colors (bareDoc (".hljs-title.function_")) Category.function = some ("#abc") ∧
     extract_colors fnDescDoc Category.function = some ("#abc") ∧
     extract_colors (bareDoc (".hljs-attribute")) Category.attribute = some ("#abc") ∧
     extract_colors (bareDoc (".hljs-name")) Category.name = some ("#abc") ∧
     extract_colors (bareDoc (".hljs-variable")) Category.variable_ = some ("#abc") ∧
     extract_colors (bareDoc (".hljs-symbol")) Category.symbol = some ("#abc") ∧
     extract_colors (bareDoc (".hljs-meta")) Category.meta = some ("#abc") ∧
     extract_colors (bareDoc (".hljs")) Category.base = some ("#abc") ∧
     extract_colors bgBareDoc Category.background = some ("#abc")) ∧
    (extract_colors (commaDoc (".hljs-keyword")) Category.keyword = some ("#abc") ∧
     extract_colors (commaDoc (".hljs-number")) Category.number = some ("#abc") ∧
     extract_colors (commaDoc (".hljs-literal")) Category.literal = some ("#abc") ∧
     extract_colors (commaDoc (".hljs-string")) Category.string = some ("#abc") ∧
     extract_colors (commaDoc (".hljs-built_in")) Category.built_in = some ("#abc") ∧
     extract_colors (commaDoc (".hljs-title.function_")) Category.function = some ("#abc") ∧
     extract_colors (commaDoc (".hljs-attribute")) Category.attribute = some ("#abc") ∧
     extract_colors (commaDoc (".hljs-name")) Category.name = some ("#abc") ∧
     extract_colors (commaDoc (".hljs-variable")) Category.variable_ = some ("#abc") ∧
     extract_colors (commaDoc (".hljs-symbol")) Category.symbol = some ("#abc") ∧
     extract_colors (commaDoc (".hljs-meta")) Category.meta = some ("#abc")) ∧
    (extract_colors (commaDoc (".hljs-type")) Category.type = none ∧
     extract_colors (commaDoc (".hljs")) Category.base = none ∧
     extract_colors bgCommaDoc Category.background = none) ∧
    (extract_colors (dotDoc (".hljs-type")) Category.type = none ∧
     extract_colors (dotDoc (".hljs-keyword")) Category.keyword = none ∧
     extract_colors (dotDoc (".hljs-number")) Category.number = none ∧
     extract_colors (dotDoc (".hljs-literal")) Category.literal = none ∧
     extract_colors (dotDoc (".hljs-string")) Category.string = none ∧
     extract_colors (dotDoc (".hljs-built_in")) Category.built_in = none ∧
     extract_colors (dotDoc (".hljs-title.function_")) Category.function = none ∧
     extract_colors (dotDoc (".hljs-attribute")) Category.attribute = none ∧
     extract_colors (dotDoc (".hljs-name")) Category.name = none ∧
     extract_colors (dotDoc (".hljs-variable")) Category.variable_ = none ∧
     extract_colors (dotDoc (".hljs-symbol")) Category.symbol = none ∧
     extract_colors (dotDoc (".hljs-meta")) Category.meta = none ∧
     extract_colors (dotDoc (".hljs")) Category.base = none ∧
     extract_colors bgDotDoc Category.background = none) := by
  refine ⟨⟨?_, ?_, ?_, ?_, ?_, ?_, ?_, ?_, ?_, ?_, ?_, ?_, ?_, ?_, ?_⟩,
    ⟨?_, ?_, ?_, ?_, ?_, ?_, ?_, ?_, ?_, ?_, ?_⟩, ⟨?_, ?_, ?_⟩,
    ⟨?_, ?_, ?_, ?_, ?_, ?_, ?_, ?_, ?_, ?_, ?_, ?_, ?_, ?_⟩⟩ <;> decide
